import Mathlib

/-!
Verification development for the deptrack package-governance tool.

The Rust sources are shallowly embedded: pure functions become Lean
functions, the stateful per-line changelog parser becomes explicit state
passing, the dependency graph (a petgraph wrapper plus hash maps) becomes
lists of nodes and index-tagged edges, and the external collaborators
(the VCS reads, the semver library, petgraph's algorithms) are either
abstracted as function parameters or modelled from the specification, as
marked in each doc comment.  Hash maps are modelled as association lists
with insert-overwrites semantics; hash-set iteration order, which the
claims never observe, is fixed to insertion order.
-/

namespace Deptrack

/-- Identity of a package: workspace plus crate name (types.rs `CrateId`). -/
structure CrateId where
  workspace : String
  name : String
deriving DecidableEq

/-- Discovered crate data; only the fields the analysed operations read are
kept (`path`/`cargo_toml_path` feed the abstracted filesystem and VCS
collaborators).  From types.rs `CrateInfo`; `version` is the raw manifest
string, parsed on use. -/
structure CrateInfo where
  id : CrateId
  version : String
deriving DecidableEq

/-- Kind tag on a dependency edge (types.rs `DependencyType`). -/
inductive DependencyType where
  | Normal
  | Dev
  | Build
deriving DecidableEq

/-- Severity of an issue (severity.rs `IssueSeverity`). -/
inductive IssueSeverity where
  | Error
  | Warning
deriving DecidableEq

/-- Kind of an issue (severity.rs `IssueType`). -/
inductive IssueType where
  | MissingChangelog
  | MissingVersionEntry
  | ChangelogNotUpdated
  | BadFormat
  | NoVersionBump
deriving DecidableEq

/-- A severity-classified issue (severity.rs `Issue`). -/
structure Issue where
  severity : IssueSeverity
  issue_type : IssueType
  message : String
deriving DecidableEq

/-- Per-kind severity choices (severity_config.rs `SeverityConfig`). -/
structure SeverityConfig where
  missing_changelog : IssueSeverity
  missing_version_entry : IssueSeverity
  changelog_not_updated : IssueSeverity
  bad_format : IssueSeverity
  no_version_bump : IssueSeverity
deriving DecidableEq

/-- severity_config.rs `SeverityConfig::get_severity`. -/
def SeverityConfig.get_severity (c : SeverityConfig) (t : IssueType) : IssueSeverity :=
  match t with
  | .MissingChangelog => c.missing_changelog
  | .MissingVersionEntry => c.missing_version_entry
  | .ChangelogNotUpdated => c.changelog_not_updated
  | .BadFormat => c.bad_format
  | .NoVersionBump => c.no_version_bump

/-! ## String helpers mirroring the exact Rust string operations used -/

/-- Rust `str::strip_prefix(c)` with a single-character pattern: strip the
first character when it equals `c`. -/
def stripChar (c : Char) (s : String) : Option String :=
  match s.data with
  | [] => none
  | x :: xs => if x = c then some ⟨xs⟩ else none

/-- Split at the first occurrence of character `c`: Rust `str::find(c)`
followed by slicing before and after the found character. -/
def splitFirstChar (s : String) (c : Char) : Option (String × String) :=
  match (s.data.dropWhile (fun x => x ≠ c)) with
  | [] => none
  | _ :: rest => some (⟨s.data.takeWhile (fun x => x ≠ c)⟩, ⟨rest⟩)

/-- Rust `str::trim_start_matches('v')`: drop every leading `v`. -/
def dropLeadingV (s : String) : String :=
  ⟨s.data.dropWhile (fun x => x = 'v')⟩

/-- Rust `str::trim` (whitespace from both ends), on the character list so
that it evaluates by plain structural recursion. -/
def strTrim (s : String) : String :=
  ⟨((s.data.dropWhile Char.isWhitespace).reverse.dropWhile Char.isWhitespace).reverse⟩

/-- Rust `str::to_uppercase` for the ASCII content the parser inspects. -/
def strToUpper (s : String) : String :=
  ⟨s.data.map Char.toUpper⟩

/-- Split a character list at every occurrence of `c` (the pieces exclude
the separator; n separators give n+1 pieces). -/
def splitOnCharAux (c : Char) : List Char → List Char → List (List Char)
  | [], acc => [acc.reverse]
  | x :: xs, acc =>
    if x = c then acc.reverse :: splitOnCharAux c xs []
    else splitOnCharAux c xs (x :: acc)

/-- Rust `str::split(c)` with a single-character separator. -/
def splitOnChar (c : Char) (s : String) : List String :=
  (splitOnCharAux c s.data []).map (fun l => ⟨l⟩)

/-- Rust `str::lines()`: split on newline, swallow one trailing empty piece,
and strip a carriage return at the end of each line. -/
def rustLines (s : String) : List String :=
  let parts := splitOnCharAux '\n' s.data []
  let parts := if parts.getLast? = some [] then parts.dropLast else parts
  parts.map (fun l => ⟨if l.getLast? = some '\r' then l.dropLast else l⟩)

/-- Substring search over a character list. -/
def containsSubList (sub : List Char) : List Char → Bool
  | [] => sub.isEmpty
  | l@(_ :: xs) => sub.isPrefixOf l || containsSubList sub xs

/-- Rust `str::contains(sub)` on strings (substring containment). -/
def containsSubstr (s sub : String) : Bool :=
  containsSubList sub.data s.data

/-- Numeric value of a digit run (the evaluation step of Rust
`str::parse::<u64>` on an already-validated digit string). -/
def digitsVal (l : List Char) : Nat :=
  l.foldl (fun acc c => acc * 10 + (c.toNat - '0'.toNat)) 0

/-! ## Semantic versions

Modelled from the spec: the external `semver` library used for version
values, with "full semantic-version ordering (major.minor.patch.pre-release
precedence)"; build metadata carries no precedence relevant to any claim
and is validated but discarded. -/

/-- One dot-separated pre-release identifier: numeric or alphanumeric. -/
inductive PreId where
  | num (n : Nat)
  | alpha (s : String)
deriving DecidableEq

/-- A parsed semantic version; empty `pre` means a release version. -/
structure SemVer where
  major : Nat
  minor : Nat
  patch : Nat
  pre : List PreId
deriving DecidableEq

/-- Modelled from the spec: pre-release identifier precedence — numeric
identifiers order numerically and are lower than alphanumeric ones, which
order lexically. -/
def PreId.ltB : PreId → PreId → Bool
  | .num a, .num b => a < b
  | .num _, .alpha _ => true
  | .alpha _, .num _ => false
  | .alpha a, .alpha b => decide (a < b)

/-- Modelled from the spec: lexicographic comparison of pre-release
identifier lists; a strict prefix is lower. -/
def preListLtB : List PreId → List PreId → Bool
  | [], [] => false
  | [], _ :: _ => true
  | _ :: _, [] => false
  | a :: as, b :: bs => PreId.ltB a b || (a = b && preListLtB as bs)

/-- Modelled from the spec: strict semantic-version precedence — compare
major, minor, patch numerically; a pre-release is lower than the release
with the same triple; two pre-releases compare by identifier list. -/
def SemVer.ltB (x y : SemVer) : Bool :=
  if x.major ≠ y.major then x.major < y.major
  else if x.minor ≠ y.minor then x.minor < y.minor
  else if x.patch ≠ y.patch then x.patch < y.patch
  else
    match x.pre, y.pre with
    | [], _ => false
    | _ :: _, [] => true
    | p, q => preListLtB p q

/-- Digit-run check used by the strict number grammar. -/
def isDigits (s : String) : Bool :=
  s ≠ "" && s.data.all (fun c => c.isDigit)

/-- Modelled from the spec: a semver numeric component — digits only, no
leading zero on a multi-digit number. -/
def parseNumStrict (s : String) : Option Nat :=
  if isDigits s then
    if s.data.head? = some '0' ∧ s.data.length > 1 then none else some (digitsVal s.data)
  else none

/-- Modelled from the spec: one pre-release identifier — numeric (no
leading zeros) or alphanumeric/hyphen. -/
def parsePreId (s : String) : Option PreId :=
  if s = "" then none
  else if s.data.all (fun c => c.isDigit) then
    if s.data.head? = some '0' ∧ s.data.length > 1 then none
    else some (.num (digitsVal s.data))
  else if s.data.all (fun c => c.isAlphanum || c = '-') then some (.alpha s)
  else none

/-- One build-metadata identifier: nonempty, alphanumeric or hyphen. -/
def validBuildId (s : String) : Bool :=
  s ≠ "" && s.data.all (fun c => c.isAlphanum || c = '-')

/-- Modelled from the spec: the external semver library's `Version::parse`
on `major.minor.patch[-pre][+build]`; build metadata is checked then
dropped. -/
def parseSemVer (s : String) : Option SemVer :=
  let (vp, build) :=
    match splitFirstChar s '+' with
    | some (a, b) => (a, some b)
    | none => (s, none)
  let buildOk :=
    match build with
    | none => true
    | some b => (splitOnChar '.' b).all validBuildId
  if buildOk then
    let (core, preS) :=
      match splitFirstChar vp '-' with
      | some (a, b) => (a, some b)
      | none => (vp, none)
    match splitOnChar '.' core with
    | [ma, mi, pa] =>
      match parseNumStrict ma, parseNumStrict mi, parseNumStrict pa with
      | some M, some m, some p =>
        match preS with
        | none => some ⟨M, m, p, []⟩
        | some ps =>
          let ids := (splitOnChar '.' ps).map parsePreId
          if ids.all (fun i => i.isSome) then some ⟨M, m, p, ids.filterMap id⟩
          else none
      | _, _, _ => none
    | _ => none
  else none

/-- Rendering of a version, used only inside issue messages. -/
def PreId.render : PreId → String
  | .num n => toString n
  | .alpha s => s

/-- Rendering of a version, used only inside issue messages. -/
def SemVer.render (v : SemVer) : String :=
  let core := toString v.major ++ "." ++ toString v.minor ++ "." ++ toString v.patch
  match v.pre with
  | [] => core
  | ps => core ++ "-" ++ String.intercalate "." (ps.map PreId.render)

/-! ## Changelog data model (changelog/types.rs) -/

/-- One changelog entry (changelog/types.rs `ChangelogEntry`). -/
structure ChangelogEntry where
  change_type : String
  scope : Option String
  description : String
  line_number : Nat
deriving DecidableEq

/-- One version section (changelog/types.rs `ChangelogVersion`). -/
structure ChangelogVersion where
  version : SemVer
  entries : List ChangelogEntry
  line_number : Nat
deriving DecidableEq

/-- changelog/types.rs `ChangelogVersion::add_entry`. -/
def ChangelogVersion.add_entry (v : ChangelogVersion) (e : ChangelogEntry) : ChangelogVersion :=
  { v with entries := v.entries ++ [e] }

/-- A parsed changelog document (changelog/types.rs `Changelog`); the
`versions` hash map keyed by semantic version is an association list with
insert-overwrites semantics, and the file path is dropped (file access is
outside the embedded core). -/
structure Changelog where
  versions : List (SemVer × ChangelogVersion)
  has_header : Bool
  format_issues : List Issue
deriving DecidableEq

/-- changelog/types.rs `Changelog::new`. -/
def Changelog.new : Changelog :=
  ⟨[], false, []⟩

/-- Hash-map insert on an association list: overwrite the entry with the
same key (keys are unique, so the first match is the only one), else
append. -/
def assocInsert {α β : Type} [DecidableEq α] (l : List (α × β)) (k : α) (v : β) :
    List (α × β) :=
  match l with
  | [] => [(k, v)]
  | p :: t => if p.1 = k then (k, v) :: t else p :: assocInsert t k v

/-- Hash-map lookup on an association list. -/
def assocLookup {α β : Type} [DecidableEq α] (l : List (α × β)) (k : α) : Option β :=
  (l.find? (fun p => p.1 = k)).map (fun p => p.2)

/-- changelog/types.rs `Changelog::add_version`: insert keyed by the parsed
semantic version, a later section with the same version overwrites. -/
def Changelog.add_version (c : Changelog) (v : ChangelogVersion) : Changelog :=
  { c with versions := assocInsert c.versions v.version v }

/-- changelog/types.rs `Changelog::has_version`. -/
def Changelog.has_version (c : Changelog) (v : SemVer) : Bool :=
  c.versions.any (fun p => p.1 = v)

/-! ## Changelog parsing (changelog/parser.rs) -/

/-- parser.rs `extract_version_from_header`: strip an extra `#` (rejecting
`##`-deep subsections), unwrap an optional `[...]` bracket, and drop
leading `v`s. -/
def extract_version_from_header (version_header : String) : Option String :=
  match stripChar '#' version_header with
  | some b0 =>
    let bracketed := strTrim b0
    match stripChar '#' bracketed with
    | some _ => none
    | none =>
      match stripChar '[' bracketed with
      | some inside_brackets =>
        some (dropLeadingV ⟨inside_brackets.data.takeWhile (fun x => x ≠ ']')⟩)
      | none => some (dropLeadingV bracketed)
  | none => some (dropLeadingV version_header)

/-- parser.rs `parse_prefix_and_description`: split an entry prefix into
change type and optional parenthesised scope. -/
def parse_prefix_and_description (pfx : String) (description : String)
    (line_number : Nat) : Except String ChangelogEntry :=
  match splitFirstChar pfx '(' with
  | none =>
    let change_type := strTrim pfx
    if change_type = "" then .error "empty change type"
    else .ok ⟨change_type, none, description, line_number⟩
  | some (before, rest) =>
    let change_type := strTrim before
    match splitFirstChar rest ')' with
    | none => .error "unclosed parenthesis in scope"
    | some (scopeRaw, _) =>
      let scope := strTrim scopeRaw
      if change_type = "" then .error "empty change type"
      else .ok ⟨change_type, some scope, description, line_number⟩

/-- parser.rs `parse_entry`: `type(scope): description`, `type:
description`, or a bare description defaulting to change type `chore`. -/
def parse_entry (text : String) (line_number : Nat) : Except String ChangelogEntry :=
  match splitFirstChar text ':' with
  | none =>
    let description := strTrim text
    if description = "" then .error "empty entry"
    else .ok ⟨"chore", none, description, line_number⟩
  | some (pfx, post) =>
    let description := strTrim post
    if description = "" then .error "empty description"
    else parse_prefix_and_description pfx description line_number

/-- State of the line-oriented parse loop in parser.rs `parse_changelog`:
the document built so far, the open version section, and the running line
counter. -/
structure ParseState where
  changelog : Changelog
  current : Option ChangelogVersion
  line_number : Nat
deriving DecidableEq

/-- One iteration of the line loop of parser.rs `parse_changelog`. -/
def parse_line (st : ParseState) (line : String) : ParseState :=
  let ln := st.line_number + 1
  let trimmed := strTrim line
  if trimmed = "" then
    { st with line_number := ln }
  else if trimmed = "# CHANGELOG" ∨ trimmed = "#CHANGELOG" then
    { st with changelog := { st.changelog with has_header := true }, line_number := ln }
  else
    match stripChar '#' trimmed with
    | some header =>
      match extract_version_from_header (strTrim header) with
      | none => { st with line_number := ln }
      | some version_str =>
        let cl :=
          match st.current with
          | some prev => st.changelog.add_version prev
          | none => st.changelog
        match parseSemVer version_str with
        | some version =>
          ⟨cl, some ⟨version, [], ln⟩, ln⟩
        | none =>
          if ¬ cl.has_header ∧ containsSubstr (strToUpper trimmed) "CHANGELOG" then
            ⟨{ cl with has_header := true }, none, ln⟩
          else
            let msg := "line " ++ toString ln ++ ": could not parse version from '"
              ++ trimmed ++ "'"
            ⟨{ cl with format_issues :=
                cl.format_issues ++ [⟨.Error, .BadFormat, msg⟩] }, none, ln⟩
    | none =>
      match stripChar '*' trimmed with
      | some entry_text =>
        match st.current with
        | some version_section =>
          match parse_entry (strTrim entry_text) ln with
          | .ok entry =>
            { st with current := some (version_section.add_entry entry), line_number := ln }
          | .error e =>
            let msg := "line " ++ toString ln ++ ": " ++ e
            { st with
              changelog := { st.changelog with format_issues :=
                st.changelog.format_issues ++ [⟨.Error, .BadFormat, msg⟩] }
              line_number := ln }
        | none =>
          let msg := "line " ++ toString ln ++ ": entry found outside of version section"
          { st with
            changelog := { st.changelog with format_issues :=
              st.changelog.format_issues ++ [⟨.Error, .BadFormat, msg⟩] }
            line_number := ln }
      | none =>
        match stripChar '-' trimmed with
        | some entry_text =>
          match st.current with
          | some version_section =>
            match parse_entry (strTrim entry_text) ln with
            | .ok entry =>
              { st with current := some (version_section.add_entry entry), line_number := ln }
            | .error e =>
              let msg := "line " ++ toString ln ++ ": " ++ e
                ++ " (note: prefer '*' over '-' for entries)"
              { st with
                changelog := { st.changelog with format_issues :=
                  st.changelog.format_issues ++ [⟨.Error, .BadFormat, msg⟩] }
                line_number := ln }
          | none => { st with line_number := ln }
        | none =>
          { st with line_number := ln }

/-- parser.rs `parse_changelog` on the file's content (the I/O read, whose
failure is the only fatal outcome, happens before this logic): run the line
loop, then flush the still-open version section. -/
def parse_changelog (content : String) : Changelog :=
  let final := (rustLines content).foldl parse_line ⟨Changelog.new, none, 0⟩
  match final.current with
  | some version_section => final.changelog.add_version version_section
  | none => final.changelog

/-! ## Dependency graph (cargo_ops/types.rs)

The source wraps a petgraph directed multigraph plus a `node_indices` hash
map and a `crates` hash map.  Here `nodes` is the petgraph node arena in
insertion order (a position is a `NodeIndex`), `edges` the edge arena as
(source index, target index, kind) triples, and `crates` the hash map as
an association list.  Workspaces play no role in any analysed operation
and are dropped. -/

structure CrateDependencyGraph where
  crates : List CrateInfo
  nodes : List CrateId
  edges : List (Nat × Nat × DependencyType)
deriving DecidableEq

/-- types.rs `CrateDependencyGraph::new`. -/
def CrateDependencyGraph.new : CrateDependencyGraph :=
  ⟨[], [], []⟩

/-- The `node_indices` lookup: position of a crate in the node arena. -/
def CrateDependencyGraph.nodeIndexOf (g : CrateDependencyGraph) (id : CrateId) : Option Nat :=
  g.nodes.findIdx? (fun x => x = id)

/-- Upsert into the `crates` hash map (keyed by `CrateId`). -/
def upsertCrate (l : List CrateInfo) (info : CrateInfo) : List CrateInfo :=
  if l.any (fun c => c.id = info.id) then
    l.map (fun c => if c.id = info.id then info else c)
  else l ++ [info]

/-- types.rs `CrateDependencyGraph::add_crate`: add the node if absent,
upsert the crate info. -/
def CrateDependencyGraph.add_crate (g : CrateDependencyGraph) (info : CrateInfo) :
    CrateDependencyGraph :=
  let g :=
    if (g.nodeIndexOf info.id).isSome then g
    else { g with nodes := g.nodes ++ [info.id] }
  { g with crates := upsertCrate g.crates info }

/-- types.rs `CrateDependencyGraph::add_dependency`: add the edge when both
endpoints are known, silently drop it otherwise. -/
def CrateDependencyGraph.add_dependency (g : CrateDependencyGraph)
    (fromId toId : CrateId) (dep_type : DependencyType) : CrateDependencyGraph :=
  match g.nodeIndexOf fromId, g.nodeIndexOf toId with
  | some i, some j => { g with edges := g.edges ++ [(i, j, dep_type)] }
  | _, _ => g

/-- types.rs `CrateDependencyGraph::get_dependents`: the source endpoint of
every incoming edge, one element per edge, empty for an unknown id. -/
def CrateDependencyGraph.get_dependents (g : CrateDependencyGraph) (id : CrateId) :
    List CrateId :=
  match g.nodeIndexOf id with
  | none => []
  | some i => g.edges.filterMap (fun e => if e.2.1 = i then g.nodes.get? e.1 else none)

/-- types.rs `CrateDependencyGraph::get_dependencies`: the target endpoint
of every outgoing edge. -/
def CrateDependencyGraph.get_dependencies (g : CrateDependencyGraph) (id : CrateId) :
    List CrateId :=
  match g.nodeIndexOf id with
  | none => []
  | some i => g.edges.filterMap (fun e => if e.1 = i then g.nodes.get? e.2.1 else none)

/-- The `crates` hash-map lookup used throughout integration.rs. -/
def CrateDependencyGraph.findCrate (g : CrateDependencyGraph) (id : CrateId) :
    Option CrateInfo :=
  g.crates.find? (fun c => c.id = id)

/-! ## Topological order (types.rs `topological_order`)

The sort itself is petgraph's `toposort`, an external collaborator.
Modelled from the spec: "returns `None` if the full graph is cyclic;
otherwise a dependency-first ordering" — realised as Kahn's algorithm
emitting, among the remaining nodes, one with no incoming edge from the
remaining set, which yields an order where every node precedes its
successors; the source wrapper then reverses it into dependency-first
order. -/

/-- The edge arena with kinds erased: the full graph, all edge kinds. -/
def CrateDependencyGraph.edgePairs (g : CrateDependencyGraph) : List (Nat × Nat) :=
  g.edges.map (fun e => (e.1, e.2.1))

/-- Does node `i` have an incoming edge whose source is still in `rem`? -/
def hasIncomingFrom (es : List (Nat × Nat)) (rem : List Nat) (i : Nat) : Bool :=
  es.any (fun e => e.2 = i && e.1 ∈ rem)

/-- Kahn's algorithm core: repeatedly emit a remaining node with no
incoming edge from the remaining set; fail when stuck on a nonempty set.
Each successful step removes exactly one element, so running it with fuel
at least `rem.length` never exhausts the fuel. -/
def kahnAux (es : List (Nat × Nat)) : Nat → List Nat → Option (List Nat)
  | 0, rem => if rem.isEmpty then some [] else none
  | fuel + 1, rem =>
    match rem.find? (fun i => ! hasIncomingFrom es rem i) with
    | none => if rem.isEmpty then some [] else none
    | some i => (kahnAux es fuel (rem.erase i)).map (fun l => i :: l)

/-- types.rs `CrateDependencyGraph::topological_order`: run the sort over
the full graph, reverse the order so dependencies come before dependents,
and map node indices back to crate ids. -/
def CrateDependencyGraph.topological_order (g : CrateDependencyGraph) :
    Option (List CrateId) :=
  (kahnAux g.edgePairs g.nodes.length (List.range g.nodes.length)).map
    (fun l => l.reverse.filterMap (fun i => g.nodes.get? i))

/-! ## Cycle detection (cargo_ops/graph.rs `find_cycles_filtered`)

The decomposition itself is petgraph's `tarjan_scc`, an external
collaborator.  Modelled from the spec: "builds an induced subgraph
containing only edges whose kind is in `allowed_kinds`, then runs
strongly-connected-components decomposition"; realised by grouping nodes
under mutual reachability, computed as a bounded fixpoint. -/

/-- One expansion pass of forward reachability over the edge list. -/
def reachStep (es : List (Nat × Nat)) (s : List Nat) : List Nat :=
  es.foldl (fun acc e => if e.1 ∈ acc ∧ e.2 ∉ acc then acc ++ [e.2] else acc) s

/-- Is `j` reachable from `i` in at most `fuel` passes (reflexively)? -/
def reachesB (es : List (Nat × Nat)) (fuel : Nat) (i j : Nat) : Bool :=
  j ∈ (reachStep es)^[fuel] [i]

/-- The strongly connected component of `i`: all nodes mutually reachable
with it. -/
def sccOf (es : List (Nat × Nat)) (n : Nat) (i : Nat) : List Nat :=
  (List.range n).filter (fun j => reachesB es n i j && reachesB es n j i)

/-- All strongly connected components, in first-representative order. -/
def sccList (es : List (Nat × Nat)) (n : Nat) : List (List Nat) :=
  (List.range n).foldl
    (fun acc i => if acc.any (fun c => i ∈ c) then acc else acc ++ [sccOf es n i]) []

/-- graph.rs `find_cycles_filtered`: keep only edges of an allowed kind,
decompose into SCCs, and report every SCC of size above one — or of size
one carrying a self-loop — as a cycle of crate ids. -/
def CrateDependencyGraph.find_cycles_filtered (g : CrateDependencyGraph)
    (allowed_types : List DependencyType) : List (List CrateId) :=
  let es := g.edges.filterMap
    (fun e => if e.2.2 ∈ allowed_types then some (e.1, e.2.1) else none)
  let n := g.nodes.length
  (sccList es n).filterMap (fun scc =>
    if scc.length > 1 then some (scc.filterMap (fun i => g.nodes.get? i))
    else
      match scc with
      | [i] => if (i, i) ∈ es then some (scc.filterMap (fun k => g.nodes.get? k)) else none
      | _ => none)

/-- graph.rs `find_cycles`: every edge kind is allowed. -/
def CrateDependencyGraph.find_cycles (g : CrateDependencyGraph) : List (List CrateId) :=
  g.find_cycles_filtered [.Normal, .Dev, .Build]

/-- graph.rs `find_production_cycles`: only `Normal` edges. -/
def CrateDependencyGraph.find_production_cycles (g : CrateDependencyGraph) :
    List (List CrateId) :=
  g.find_cycles_filtered [.Normal]

/-- graph.rs `GraphStatistics`; `workspace_count` is dropped along with
workspaces, which no analysed operation reads. -/
structure GraphStatistics where
  crate_count : Nat
  dependency_count : Nat
  has_cycles : Bool
  cycle_count : Nat
  total_cycles_including_dev : Nat
  max_dependents : Nat
  max_dependencies : Nat
deriving DecidableEq

/-- graph.rs `get_statistics`: production cycles drive `has_cycles` and
`cycle_count`; the unfiltered count is reported separately. -/
def CrateDependencyGraph.get_statistics (g : CrateDependencyGraph) : GraphStatistics :=
  let production_cycles := g.find_production_cycles
  let all_cycles := g.find_cycles
  { crate_count := g.nodes.length
    dependency_count := g.edges.length
    has_cycles := ! production_cycles.isEmpty
    cycle_count := production_cycles.length
    total_cycles_including_dev := all_cycles.length
    max_dependents := ((g.crates.map (fun c => (g.get_dependents c.id).length)).max?).getD 0
    max_dependencies := ((g.crates.map (fun c => (g.get_dependencies c.id).length)).max?).getD 0 }

/-! ## Transitive impact closure (integration.rs `find_all_affected_crates`)

The source recursion `collect_affected_recursive` carries a grow-only
visited set, which bounds its depth by the number of distinct ids it can
ever see; the embedding makes that bound explicit as fuel, and
`collect_affected_fuel` below proves the chosen fuel is never exhausted,
so the two agree.  The accumulator pairs the `affected` output list with
the `visited` set (a list with membership semantics). -/

/-- integration.rs `collect_affected_recursive` (fuel-indexed): skip an
already-visited crate, otherwise record it and recurse into its
dependents with one unit of fuel fewer. -/
def collect_affected (g : CrateDependencyGraph) :
    Nat → CrateId → List CrateId × List CrateId → List CrateId × List CrateId
  | 0, _, acc => acc
  | fuel + 1, id, acc =>
    if id ∈ acc.2 then acc
    else
      (g.get_dependents id).foldl (fun a d => collect_affected g fuel d a)
        (acc.1 ++ [id], id :: acc.2)

/-- integration.rs `find_all_affected_crates`: run the recursive collection
from every directly affected crate, sharing one accumulator. -/
def CrateDependencyGraph.find_all_affected_crates (g : CrateDependencyGraph)
    (directly_affected : List CrateId) : List CrateId :=
  (directly_affected.foldl
    (fun acc id => collect_affected g (g.nodes.length + 1) id acc) ([], [])).1

/-! ## Version bump analysis (integration.rs `analyze_version_bumps`)

`baseRead` abstracts `read_crate_version_at_ref` for the fixed repository
and base ref: `some v` is the `Ok(Some(v))` outcome, `none` collapses the
read-failed / absent-at-ref / unparseable outcomes, all of which the source
treats alike by falling back to the current version. -/

/-- integration.rs `VersionBumpStatus`. -/
structure VersionBumpStatus where
  crate_id : CrateId
  base_version : SemVer
  current_version : SemVer
  is_bumped : Bool
  is_directly_changed : Bool
  issues : List Issue
deriving DecidableEq

/-- integration.rs `VersionBumpAnalysis`; the `crate_versions` hash map is
an association list with insert-overwrites semantics. -/
structure VersionBumpAnalysis where
  crate_versions : List (CrateId × VersionBumpStatus)
  crates_needing_bump : List CrateId
  crates_bumped : List CrateId
  total_errors : Nat
  total_warnings : Nat
deriving DecidableEq

/-- The per-crate body of the loop in integration.rs
`analyze_version_bumps`: skip silently when the crate is unknown or its
current version unparseable; fall back to the current version when the
base read yields nothing; compare under semantic-version precedence; on a
missing bump raise a `NoVersionBump` issue at the severity chosen by
direct-vs-transitive membership. -/
def analyze_version_bumps_step (g : CrateDependencyGraph)
    (baseRead : CrateId → Option SemVer) (directly_changed : List CrateId)
    (direct_severity transitive_severity : SeverityConfig)
    (acc : VersionBumpAnalysis) (crate_id : CrateId) : VersionBumpAnalysis :=
  match g.findCrate crate_id with
  | none => acc
  | some crate_info =>
    match parseSemVer crate_info.version with
    | none => acc
    | some current_version =>
      let base_version :=
        match baseRead crate_id with
        | some v => v
        | none => current_version
      let is_bumped := SemVer.ltB base_version current_version
      let is_directly_changed := crate_id ∈ directly_changed
      let severity_config :=
        if is_directly_changed then direct_severity else transitive_severity
      let status0 : VersionBumpStatus :=
        ⟨crate_id, base_version, current_version, is_bumped, is_directly_changed, []⟩
      if is_bumped then
        { acc with
          crates_bumped := acc.crates_bumped ++ [crate_id]
          crate_versions := assocInsert acc.crate_versions crate_id status0 }
      else
        let severity := severity_config.get_severity .NoVersionBump
        let message := "version not bumped (current: " ++ current_version.render
          ++ ", base: " ++ base_version.render ++ ")"
        let status := { status0 with issues := [⟨severity, .NoVersionBump, message⟩] }
        { acc with
          crates_needing_bump := acc.crates_needing_bump ++ [crate_id]
          crate_versions := assocInsert acc.crate_versions crate_id status
          total_errors := acc.total_errors + (if severity = .Error then 1 else 0)
          total_warnings := acc.total_warnings + (if severity = .Error then 0 else 1) }

/-- integration.rs `analyze_version_bumps`: fold the per-crate body over
the caller-supplied affected set. -/
def CrateDependencyGraph.analyze_version_bumps (g : CrateDependencyGraph)
    (baseRead : CrateId → Option SemVer) (affected_crates : List CrateId)
    (directly_changed : List CrateId)
    (direct_severity transitive_severity : SeverityConfig) : VersionBumpAnalysis :=
  affected_crates.foldl
    (analyze_version_bumps_step g baseRead directly_changed direct_severity
      transitive_severity)
    ⟨[], [], [], 0, 0⟩

/-- integration.rs `VersionBumpAnalysis::bump_percentage`, with the f64
arithmetic carried out over the rationals; the empty case returns the
literal 100 before any division happens. -/
def VersionBumpAnalysis.bump_percentage (a : VersionBumpAnalysis) : ℚ :=
  let total := a.crate_versions.length
  if total = 0 then 100
  else ((a.crates_bumped.length : ℚ) / (total : ℚ)) * 100

/-! ## Changelog analysis aggregate (changelog/types.rs, changelog_checker.rs)

`analyze_for_changes` walks the version analysis's crate map and derives a
`ChangelogStatus` per crate from filesystem and changelog-file content;
that per-crate derivation (manifest paths, file reads) is abstracted as
the `process` parameter, `none` standing for the skipped outcomes (crate
missing from the graph, or transitively affected with no changelog under
`allow_missing_for_transitive`).  The aggregation around it is embedded
from the source. -/

/-- changelog/types.rs `ChangelogStatus`, without the path fields that only
feed display code. -/
structure ChangelogStatus where
  crate_id : CrateId
  has_changelog : Bool
  format_valid : Bool
  current_version_has_entry : Bool
  changelog_was_updated : Bool
  issues : List Issue
deriving DecidableEq

/-- changelog/types.rs `ChangelogAnalysis`. -/
structure ChangelogAnalysis where
  statuses : List (CrateId × ChangelogStatus)
  crates_with_valid_changelog : List CrateId
  crates_missing_changelog : List CrateId
  crates_needing_changelog_update : List CrateId
  total_issues : Nat
  total_errors : Nat
  total_warnings : Nat
deriving DecidableEq

/-- changelog/types.rs `ChangelogAnalysis::new`. -/
def ChangelogAnalysis.new : ChangelogAnalysis :=
  ⟨[], [], [], [], 0, 0, 0⟩

/-- changelog/types.rs `ChangelogAnalysis::all_valid`: nothing missing and
nothing needing an update. -/
def ChangelogAnalysis.all_valid (a : ChangelogAnalysis) : Bool :=
  a.crates_missing_changelog.isEmpty && a.crates_needing_changelog_update.isEmpty

/-- Count of error-level issues on a status (changelog/types.rs
`error_count`). -/
def ChangelogStatus.error_count (s : ChangelogStatus) : Nat :=
  (s.issues.filter (fun i => i.severity = .Error)).length

/-- Count of warning-level issues on a status (changelog/types.rs
`warning_count`). -/
def ChangelogStatus.warning_count (s : ChangelogStatus) : Nat :=
  (s.issues.filter (fun i => i.severity = .Warning)).length

/-- The per-crate aggregation step of changelog_checker.rs
`analyze_for_changes`: categorise the processed status and accumulate the
issue totals. -/
def analyze_for_changes_step (directly_affected : List CrateId)
    (process : CrateId → VersionBumpStatus → Option ChangelogStatus)
    (acc : ChangelogAnalysis) (entry : CrateId × VersionBumpStatus) : ChangelogAnalysis :=
  match process entry.1 entry.2 with
  | none => acc
  | some status =>
    let is_directly_changed := entry.1 ∈ directly_affected
    let needs_update := is_directly_changed
      && (! status.has_changelog || ! status.current_version_has_entry)
    let acc :=
      if status.has_changelog && status.format_valid && status.current_version_has_entry
      then { acc with
              crates_with_valid_changelog := acc.crates_with_valid_changelog ++ [entry.1] }
      else if ! status.has_changelog
      then { acc with
              crates_missing_changelog := acc.crates_missing_changelog ++ [entry.1] }
      else acc
    let acc :=
      if needs_update
      then { acc with
              crates_needing_changelog_update :=
                acc.crates_needing_changelog_update ++ [entry.1] }
      else acc
    { acc with
      statuses := assocInsert acc.statuses entry.1 status
      total_issues := acc.total_issues + status.issues.length
      total_errors := acc.total_errors + status.error_count
      total_warnings := acc.total_warnings + status.warning_count }

/-- changelog_checker.rs `analyze_for_changes`: fold the aggregation step
over the version analysis's crate map. -/
def analyze_for_changes (version_analysis : VersionBumpAnalysis)
    (directly_affected : List CrateId)
    (process : CrateId → VersionBumpStatus → Option ChangelogStatus) : ChangelogAnalysis :=
  version_analysis.crate_versions.foldl
    (analyze_for_changes_step directly_affected process) ChangelogAnalysis.new

/-! ## Derived relations used by the stated properties -/

/-- One step of the full-graph edge relation on node indices: an edge of
any kind between two valid nodes. -/
def fullEdgeStep (g : CrateDependencyGraph) (u v : Nat) : Prop :=
  (u, v) ∈ g.edgePairs ∧ u < g.nodes.length ∧ v < g.nodes.length

/-- The full graph (all edge kinds) contains a cycle: some node reaches
itself through at least one edge. -/
def hasCycleFull (g : CrateDependencyGraph) : Prop :=
  ∃ x, Relation.TransGen (fullEdgeStep g) x x

/-- Crate `a` depends directly on crate `b`: some edge of any kind runs
from `a`'s node to `b`'s node. -/
def dependsOnDirectly (g : CrateDependencyGraph) (a b : CrateId) : Prop :=
  ∃ e ∈ g.edges, g.nodes.get? e.1 = some a ∧ g.nodes.get? e.2.1 = some b

/-! ## Default severity configurations (severity_config.rs) -/

/-- severity_config.rs `SeverityConfig::default_direct`. -/
def SeverityConfig.default_direct : SeverityConfig :=
  ⟨.Error, .Warning, .Warning, .Error, .Error⟩

/-- severity_config.rs `SeverityConfig::default_transitive`. -/
def SeverityConfig.default_transitive : SeverityConfig :=
  ⟨.Warning, .Warning, .Warning, .Warning, .Warning⟩

/-! ## Concrete instances exercised by the stated properties -/

/-- Crate id `w::a` of the example workspace `w`. -/
def crateA : CrateId := ⟨"w", "a"⟩

/-- Crate id `w::b`. -/
def crateB : CrateId := ⟨"w", "b"⟩

/-- Crate id `w::c`. -/
def crateC : CrateId := ⟨"w", "c"⟩

/-- A graph whose only cycle is the Dev-kind two-cycle between `a` and
`b`; the Normal edge `a → c` keeps the production subgraph nonempty and
acyclic. -/
def gDevCycle : CrateDependencyGraph :=
  (((((CrateDependencyGraph.new.add_crate ⟨crateA, "0.1.0"⟩).add_crate
    ⟨crateB, "0.1.0"⟩).add_crate ⟨crateC, "0.1.0"⟩).add_dependency crateA crateB
    .Dev).add_dependency crateB crateA .Dev).add_dependency crateA crateC .Normal

/-- The acyclic chain A depends on B depends on C (edges A→B→C). -/
def gABC : CrateDependencyGraph :=
  ((((CrateDependencyGraph.new.add_crate ⟨crateA, "0.1.0"⟩).add_crate
    ⟨crateB, "0.1.0"⟩).add_crate ⟨crateC, "0.1.0"⟩).add_dependency crateA crateB
    .Normal).add_dependency crateB crateC .Normal

/-- A two-crate graph with a Normal-kind dependency cycle between `a` and
`b`. -/
def gCycAB : CrateDependencyGraph :=
  (((CrateDependencyGraph.new.add_crate ⟨crateA, "0.1.0"⟩).add_crate
    ⟨crateB, "0.1.0"⟩).add_dependency crateA crateB .Normal).add_dependency
    crateB crateA .Normal

/-- A single-crate graph whose crate `w::a` carries the given manifest
version string. -/
def gSingle (v : String) : CrateDependencyGraph :=
  CrateDependencyGraph.new.add_crate ⟨crateA, v⟩

/-- The `Ok(Some(_))` outcome of the historical manifest read: base
version 0.1.0 for every crate. -/
def baseRead010 : CrateId → Option SemVer := fun _ => some ⟨0, 1, 0, []⟩

/-- The failed historical manifest read: nothing readable at the base ref. -/
def baseReadNone : CrateId → Option SemVer := fun _ => none

/-! ## Helper lemmas on association-list maps -/

theorem assocLookup_cons {α β : Type} [DecidableEq α]
    (p : α × β) (t : List (α × β)) (k : α) :
    assocLookup (p :: t) k = if p.1 = k then some p.2 else assocLookup t k := by
  by_cases h : p.1 = k
  · simp [assocLookup, List.find?, h]
  · simp only [assocLookup, List.find?, decide_eq_false h, if_neg h]

theorem assocLookup_insert {α β : Type} [DecidableEq α]
    (l : List (α × β)) (k k' : α) (v : β) :
    assocLookup (assocInsert l k v) k' = if k' = k then some v else assocLookup l k' := by
  induction l with
  | nil =>
    by_cases h : k' = k
    · simp [assocInsert, assocLookup, List.find?, h]
    · simp only [assocInsert, assocLookup, List.find?,
        decide_eq_false (fun hh : k = k' => h hh.symm), if_neg h]
  | cons p t ih =>
    by_cases hp : p.1 = k
    · rw [show assocInsert (p :: t) k v = (k, v) :: t from by simp [assocInsert, hp]]
      by_cases h : k' = k
      · simp [assocLookup_cons, h]
      · rw [assocLookup_cons, assocLookup_cons, if_neg h,
          if_neg (fun hh : k = k' => h hh.symm),
          if_neg (fun hh : p.1 = k' => h (hp.symm.trans hh).symm)]
    · rw [show assocInsert (p :: t) k v = p :: assocInsert t k v from by
        simp [assocInsert, hp]]
      rw [assocLookup_cons, assocLookup_cons, ih]
      by_cases hpk : p.1 = k'
      · have h : ¬ k' = k := fun hh => hp (hpk.trans hh)
        simp [hpk, h]
      · simp [hpk]

theorem assocLookup_nil {α β : Type} [DecidableEq α] (k : α) :
    assocLookup ([] : List (α × β)) k = none := rfl

/-! ## Strict-order facts about the semantic-version comparison -/

theorem preId_ltB_irrefl (a : PreId) : PreId.ltB a a = false := by
  cases a with
  | num n => simp [PreId.ltB]
  | alpha s => simp [PreId.ltB]

theorem preListLtB_irrefl (l : List PreId) : preListLtB l l = false := by
  induction l with
  | nil => rfl
  | cons a t ih => simp [preListLtB, preId_ltB_irrefl, ih]

theorem semver_ltB_irrefl (v : SemVer) : SemVer.ltB v v = false := by
  unfold SemVer.ltB
  simp only [ne_eq, not_true_eq_false, if_false]
  cases h : v.pre with
  | nil => rfl
  | cons a t => simp [preListLtB_irrefl]

/-! ## Shape of the statuses produced by the version bump analysis -/

theorem analyze_step_lookup (g : CrateDependencyGraph) (baseRead : CrateId → Option SemVer)
    (directly : List CrateId) (ds ts : SeverityConfig) (acc : VersionBumpAnalysis)
    (cid id : CrateId) (st : VersionBumpStatus)
    (h : assocLookup (analyze_version_bumps_step g baseRead directly ds ts acc cid).crate_versions
      id = some st) :
    assocLookup acc.crate_versions id = some st ∨
      (st.base_version = (baseRead id).getD st.current_version ∧
        st.is_bumped = SemVer.ltB st.base_version st.current_version) := by
  unfold analyze_version_bumps_step at h
  cases hfind : g.findCrate cid with
  | none => rw [hfind] at h; exact Or.inl h
  | some info =>
    simp only [hfind] at h
    cases hparse : parseSemVer info.version with
    | none => simp only [hparse] at h; exact Or.inl h
    | some current =>
      simp only [hparse] at h
      by_cases hb : SemVer.ltB (match baseRead cid with
          | some v => v
          | none => current) current = true
      · simp only [hb, if_true] at h
        rw [assocLookup_insert] at h
        by_cases hid : id = cid
        · right
          rw [if_pos hid] at h
          subst hid
          cases h
          refine ⟨?_, ?_⟩
          · cases hbr : baseRead id with
            | some v => simp [hbr]
            | none => simp [hbr]
          · exact hb.symm
        · rw [if_neg hid] at h; exact Or.inl h
      · simp only [Bool.not_eq_true] at hb
        simp only [hb, Bool.false_eq_true, if_false] at h
        rw [assocLookup_insert] at h
        by_cases hid : id = cid
        · right
          rw [if_pos hid] at h
          subst hid
          cases h
          refine ⟨?_, ?_⟩
          · cases hbr : baseRead id with
            | some v => simp [hbr]
            | none => simp [hbr]
          · exact hb.symm
        · rw [if_neg hid] at h; exact Or.inl h

theorem analyze_fold_lookup (g : CrateDependencyGraph) (baseRead : CrateId → Option SemVer)
    (directly : List CrateId) (ds ts : SeverityConfig) :
    ∀ (affected : List CrateId) (acc : VersionBumpAnalysis) (id : CrateId)
      (st : VersionBumpStatus),
      assocLookup
        (affected.foldl (analyze_version_bumps_step g baseRead directly ds ts)
          acc).crate_versions id = some st →
      assocLookup acc.crate_versions id = some st ∨
        (st.base_version = (baseRead id).getD st.current_version ∧
          st.is_bumped = SemVer.ltB st.base_version st.current_version) := by
  intro affected
  induction affected with
  | nil => intro acc id st h; exact Or.inl h
  | cons cid rest ih =>
    intro acc id st h
    rcases ih _ id st h with h1 | h2
    · exact analyze_step_lookup g baseRead directly ds ts acc cid id st h1
    · exact Or.inr h2

theorem analyze_version_bumps_lookup (g : CrateDependencyGraph)
    (baseRead : CrateId → Option SemVer) (affected directly : List CrateId)
    (ds ts : SeverityConfig) (id : CrateId) (st : VersionBumpStatus)
    (h : assocLookup
      (g.analyze_version_bumps baseRead affected directly ds ts).crate_versions id = some st) :
    st.base_version = (baseRead id).getD st.current_version ∧
      st.is_bumped = SemVer.ltB st.base_version st.current_version := by
  rcases analyze_fold_lookup g baseRead directly ds ts affected ⟨[], [], [], 0, 0⟩ id st h with
    h1 | h2
  · exact absurd h1 (by rw [assocLookup_nil]; exact Option.noConfusion)
  · exact h2

/-! ## Claim C1 -/

/-- C1 counterexample: one affected crate with current version 1.2.3 whose
base-ref manifest read fails; the claim demands `is_bumped = true`
regardless, but the analysis records `is_bumped = false` (the base falls
back to the current version, and `current > current` is false). -/
theorem claim_c1_counterexample :
    ((gSingle "1.2.3").analyze_version_bumps baseReadNone [crateA] [crateA]
      SeverityConfig.default_direct
      SeverityConfig.default_transitive).crate_versions.map (fun p => p.2.is_bumped) =
      [false] := by
  decide

/-- C1 (amended): for every affected package whose base-ref manifest read
fails or whose historical version cannot be parsed, the recorded status
has `base_version` equal to `current_version` and therefore
`is_bumped = false` regardless of the current version value, so the
package is treated as not bumped. -/
theorem claim_c1_read_failure_not_bumped (g : CrateDependencyGraph)
    (baseRead : CrateId → Option SemVer) (affected directly : List CrateId)
    (ds ts : SeverityConfig) (id : CrateId) (st : VersionBumpStatus)
    (hread : baseRead id = none)
    (h : assocLookup
      (g.analyze_version_bumps baseRead affected directly ds ts).crate_versions id = some st) :
    st.base_version = st.current_version ∧ st.is_bumped = false := by
  obtain ⟨hbase, hbump⟩ := analyze_version_bumps_lookup g baseRead affected directly ds ts id st h
  rw [hread] at hbase
  simp only [Option.getD_none] at hbase
  refine ⟨hbase, ?_⟩
  rw [hbump, hbase, semver_ltB_irrefl]

/-- C1 witness: the amended statement applied to the concrete failing-read
single-crate analysis. -/
theorem claim_c1_read_failure_not_bumped_witness :
    (⟨crateA, ⟨1, 2, 3, []⟩, ⟨1, 2, 3, []⟩, false, true,
      [⟨.Error, .NoVersionBump,
        "version not bumped (current: 1.2.3, base: 1.2.3)"⟩]⟩ : VersionBumpStatus).base_version
      = (⟨crateA, ⟨1, 2, 3, []⟩, ⟨1, 2, 3, []⟩, false, true,
        [⟨.Error, .NoVersionBump,
          "version not bumped (current: 1.2.3, base: 1.2.3)"⟩]⟩ : VersionBumpStatus).current_version
    ∧ (⟨crateA, ⟨1, 2, 3, []⟩, ⟨1, 2, 3, []⟩, false, true,
        [⟨.Error, .NoVersionBump,
          "version not bumped (current: 1.2.3, base: 1.2.3)"⟩]⟩ : VersionBumpStatus).is_bumped
      = false :=
  claim_c1_read_failure_not_bumped (gSingle "1.2.3") baseReadNone [crateA] [crateA]
    SeverityConfig.default_direct SeverityConfig.default_transitive crateA _
    rfl (by decide)

/-! ## Claim C7 -/

/-- C7: whenever the base version was successfully read, the recorded
status has exactly that base version and `is_bumped` holds iff the current
version exceeds it under semantic-version precedence; and on concrete
single-crate analyses with base 0.1.0, current 0.1.1 is bumped, current
0.1.0 is not, and current 0.1.0-alpha is not (a pre-release is lower than
the release). -/
theorem claim_c7_version_ordering :
    (∀ (g : CrateDependencyGraph) (baseRead : CrateId → Option SemVer)
      (affected directly : List CrateId) (ds ts : SeverityConfig)
      (id : CrateId) (st : VersionBumpStatus) (b : SemVer),
      baseRead id = some b →
      assocLookup
        (g.analyze_version_bumps baseRead affected directly ds ts).crate_versions id =
        some st →
      st.base_version = b ∧
        (st.is_bumped = true ↔ SemVer.ltB b st.current_version = true)) ∧
    ((gSingle "0.1.1").analyze_version_bumps baseRead010 [crateA] [crateA]
      SeverityConfig.default_direct
      SeverityConfig.default_transitive).crate_versions.map (fun p => p.2.is_bumped) = [true] ∧
    ((gSingle "0.1.0").analyze_version_bumps baseRead010 [crateA] [crateA]
      SeverityConfig.default_direct
      SeverityConfig.default_transitive).crate_versions.map (fun p => p.2.is_bumped) = [false] ∧
    ((gSingle "0.1.0-alpha").analyze_version_bumps baseRead010 [crateA] [crateA]
      SeverityConfig.default_direct
      SeverityConfig.default_transitive).crate_versions.map (fun p => p.2.is_bumped) =
      [false] := by
  refine ⟨?_, by decide, by decide, by decide⟩
  intro g baseRead affected directly ds ts id st b hread h
  obtain ⟨hbase, hbump⟩ := analyze_version_bumps_lookup g baseRead affected directly ds ts id st h
  rw [hread] at hbase
  simp only [Option.getD_some] at hbase
  refine ⟨hbase, ?_⟩
  rw [hbump, hbase]

/-- C7 witness: the general clause applied to the concrete bumped
single-crate analysis. -/
theorem claim_c7_version_ordering_witness :
    (⟨crateA, ⟨0, 1, 0, []⟩, ⟨0, 1, 1, []⟩, true, true, []⟩ : VersionBumpStatus).base_version
        = ⟨0, 1, 0, []⟩ ∧
      ((⟨crateA, ⟨0, 1, 0, []⟩, ⟨0, 1, 1, []⟩, true, true, []⟩ :
          VersionBumpStatus).is_bumped = true ↔
        SemVer.ltB ⟨0, 1, 0, []⟩
          (⟨crateA, ⟨0, 1, 0, []⟩, ⟨0, 1, 1, []⟩, true, true, []⟩ :
            VersionBumpStatus).current_version = true) :=
  claim_c7_version_ordering.1 (gSingle "0.1.1") baseRead010 [crateA] [crateA]
    SeverityConfig.default_direct SeverityConfig.default_transitive crateA _ ⟨0, 1, 0, []⟩
    rfl (by decide)

/-! ## Claim C9 -/

/-- C9: with an empty affected set, the version bump analysis reports a
bump percentage of exactly 100 and the changelog analysis built over it
reports `all_valid`, for every graph, historical read, severity choice and
per-crate changelog processing. -/
theorem claim_c9_vacuous_compliance (g : CrateDependencyGraph)
    (baseRead : CrateId → Option SemVer) (directly : List CrateId)
    (ds ts : SeverityConfig) (da : List CrateId)
    (process : CrateId → VersionBumpStatus → Option ChangelogStatus) :
    (g.analyze_version_bumps baseRead [] directly ds ts).bump_percentage = 100 ∧
    (analyze_for_changes (g.analyze_version_bumps baseRead [] directly ds ts) da
      process).all_valid = true := by
  exact ⟨rfl, rfl⟩

/-! ## Claim C10 -/

theorem analyze_step_skip (g : CrateDependencyGraph) (baseRead : CrateId → Option SemVer)
    (directly : List CrateId) (ds ts : SeverityConfig) (acc : VersionBumpAnalysis)
    (id : CrateId)
    (hskip : g.findCrate id = none ∨
      ∃ info, g.findCrate id = some info ∧ parseSemVer info.version = none) :
    analyze_version_bumps_step g baseRead directly ds ts acc id = acc := by
  unfold analyze_version_bumps_step
  rcases hskip with hnone | ⟨info, hfind, hparse⟩
  · rw [hnone]
  · simp only [hfind, hparse]

theorem analyze_step_preserves_absent (g : CrateDependencyGraph)
    (baseRead : CrateId → Option SemVer) (directly : List CrateId)
    (ds ts : SeverityConfig) (acc : VersionBumpAnalysis) (cid id : CrateId)
    (hne : cid ≠ id)
    (hacc : assocLookup acc.crate_versions id = none ∧
      id ∉ acc.crates_needing_bump ∧ id ∉ acc.crates_bumped) :
    assocLookup (analyze_version_bumps_step g baseRead directly ds ts acc
        cid).crate_versions id = none ∧
      id ∉ (analyze_version_bumps_step g baseRead directly ds ts acc cid).crates_needing_bump ∧
      id ∉ (analyze_version_bumps_step g baseRead directly ds ts acc cid).crates_bumped := by
  obtain ⟨h1, h2, h3⟩ := hacc
  unfold analyze_version_bumps_step
  cases hfind : g.findCrate cid with
  | none => exact ⟨h1, h2, h3⟩
  | some info =>
    simp only [hfind]
    cases hparse : parseSemVer info.version with
    | none => exact ⟨h1, h2, h3⟩
    | some current =>
      simp only [hparse]
      by_cases hb : SemVer.ltB (match baseRead cid with
          | some v => v
          | none => current) current = true
      · simp only [hb, if_true]
        refine ⟨?_, h2, ?_⟩
        · rw [assocLookup_insert, if_neg (fun hh : id = cid => hne hh.symm)]
          exact h1
        · intro hmem
          rcases List.mem_append.mp hmem with hmem | hmem
          · exact h3 hmem
          · exact hne (List.mem_singleton.mp hmem).symm
      · simp only [Bool.not_eq_true] at hb
        simp only [hb, Bool.false_eq_true, if_false]
        refine ⟨?_, ?_, h3⟩
        · rw [assocLookup_insert, if_neg (fun hh : id = cid => hne hh.symm)]
          exact h1
        · intro hmem
          rcases List.mem_append.mp hmem with hmem | hmem
          · exact h2 hmem
          · exact hne (List.mem_singleton.mp hmem).symm

theorem analyze_fold_absent (g : CrateDependencyGraph) (baseRead : CrateId → Option SemVer)
    (directly : List CrateId) (ds ts : SeverityConfig) (id : CrateId)
    (hskip : g.findCrate id = none ∨
      ∃ info, g.findCrate id = some info ∧ parseSemVer info.version = none) :
    ∀ (affected : List CrateId) (acc : VersionBumpAnalysis),
      (assocLookup acc.crate_versions id = none ∧
        id ∉ acc.crates_needing_bump ∧ id ∉ acc.crates_bumped) →
      (assocLookup
          (affected.foldl (analyze_version_bumps_step g baseRead directly ds ts)
            acc).crate_versions id = none ∧
        id ∉ (affected.foldl (analyze_version_bumps_step g baseRead directly ds ts)
          acc).crates_needing_bump ∧
        id ∉ (affected.foldl (analyze_version_bumps_step g baseRead directly ds ts)
          acc).crates_bumped) := by
  intro affected
  induction affected with
  | nil => intro acc hacc; exact hacc
  | cons cid rest ih =>
    intro acc hacc
    simp only [List.foldl_cons]
    by_cases hcid : cid = id
    · subst hcid
      rw [analyze_step_skip g baseRead directly ds ts acc cid hskip]
      exact ih acc hacc
    · exact ih _ (analyze_step_preserves_absent g baseRead directly ds ts acc cid id hcid hacc)

theorem analyze_fold_filter (g : CrateDependencyGraph) (baseRead : CrateId → Option SemVer)
    (directly : List CrateId) (ds ts : SeverityConfig) (id : CrateId)
    (hskip : g.findCrate id = none ∨
      ∃ info, g.findCrate id = some info ∧ parseSemVer info.version = none) :
    ∀ (affected : List CrateId) (acc : VersionBumpAnalysis),
      affected.foldl (analyze_version_bumps_step g baseRead directly ds ts) acc =
        (affected.filter (fun x => x ≠ id)).foldl
          (analyze_version_bumps_step g baseRead directly ds ts) acc := by
  intro affected
  induction affected with
  | nil => intro acc; rfl
  | cons cid rest ih =>
    intro acc
    by_cases hcid : cid = id
    · have hdec : (decide (cid ≠ id)) = false := decide_eq_false (fun hne => hne hcid)
      simp only [List.foldl_cons, List.filter_cons, hdec, Bool.false_eq_true, if_false]
      rw [hcid, analyze_step_skip g baseRead directly ds ts acc id hskip]
      exact ih acc
    · have hdec : (decide (cid ≠ id)) = true := decide_eq_true hcid
      simp only [List.foldl_cons, List.filter_cons, hdec, if_true]
      exact ih _

/-- C10: a crate in the affected set that is absent from the graph's crate
map, or whose loaded version string does not parse as a semantic version,
is silently omitted — it gets no status, lands in neither partition, and
the whole analysis equals the analysis run without it (so it contributes
no issue and leaves the error and warning totals unchanged). -/
theorem claim_c10_unknown_crate_skipped (g : CrateDependencyGraph)
    (baseRead : CrateId → Option SemVer) (affected directly : List CrateId)
    (ds ts : SeverityConfig) (id : CrateId)
    (hskip : g.findCrate id = none ∨
      ∃ info, g.findCrate id = some info ∧ parseSemVer info.version = none) :
    assocLookup
        (g.analyze_version_bumps baseRead affected directly ds ts).crate_versions id = none ∧
      id ∉ (g.analyze_version_bumps baseRead affected directly ds ts).crates_needing_bump ∧
      id ∉ (g.analyze_version_bumps baseRead affected directly ds ts).crates_bumped ∧
      g.analyze_version_bumps baseRead affected directly ds ts =
        g.analyze_version_bumps baseRead (affected.filter (fun x => x ≠ id)) directly ds ts := by
  have habs := analyze_fold_absent g baseRead directly ds ts id hskip affected
    ⟨[], [], [], 0, 0⟩ ⟨rfl, List.not_mem_nil id, List.not_mem_nil id⟩
  exact ⟨habs.1, habs.2.1, habs.2.2,
    analyze_fold_filter g baseRead directly ds ts id hskip affected ⟨[], [], [], 0, 0⟩⟩

/-- C10 witness: the skip property applied to a single-crate graph with an
unparseable version string and to an affected crate unknown to the graph. -/
theorem claim_c10_unknown_crate_skipped_witness :
    assocLookup
        ((gSingle "abc").analyze_version_bumps baseReadNone [crateA] [crateA]
          SeverityConfig.default_direct
          SeverityConfig.default_transitive).crate_versions crateA = none ∧
      crateA ∉ ((gSingle "abc").analyze_version_bumps baseReadNone [crateA] [crateA]
        SeverityConfig.default_direct SeverityConfig.default_transitive).crates_needing_bump ∧
      crateA ∉ ((gSingle "abc").analyze_version_bumps baseReadNone [crateA] [crateA]
        SeverityConfig.default_direct SeverityConfig.default_transitive).crates_bumped ∧
      (gSingle "abc").analyze_version_bumps baseReadNone [crateA] [crateA]
          SeverityConfig.default_direct SeverityConfig.default_transitive =
        (gSingle "abc").analyze_version_bumps baseReadNone
          ([crateA].filter (fun x => x ≠ crateA)) [crateA]
          SeverityConfig.default_direct SeverityConfig.default_transitive :=
  claim_c10_unknown_crate_skipped (gSingle "abc") baseReadNone [crateA] [crateA]
    SeverityConfig.default_direct SeverityConfig.default_transitive crateA
    (Or.inr ⟨⟨crateA, "abc"⟩, by decide, by decide⟩)

/-! ## Claim C3 -/

/-- C3: on the graph whose only cycle is the Dev-kind two-cycle,
production cycle detection reports nothing, unfiltered detection reports
exactly one cycle, and the statistics show `has_cycles = false` with
`total_cycles_including_dev = 1`. -/
theorem claim_c3_dev_only_cycle :
    gDevCycle.find_production_cycles = [] ∧
      gDevCycle.find_cycles.length = 1 ∧
      gDevCycle.get_statistics.has_cycles = false ∧
      gDevCycle.get_statistics.total_cycles_including_dev = 1 := by
  decide

/-! ## Claim C8 -/

/-- C8: parsing the five-line document yields the header flag, exactly one
version section keyed 1.0.0 holding exactly one entry of type `feat`,
scope `x`, description `y`, and no format issues. -/
theorem claim_c8_round_trip :
    (parse_changelog "# CHANGELOG\n\n# 1.0.0\n\n* feat(x): y\n").has_header = true ∧
      (parse_changelog "# CHANGELOG\n\n# 1.0.0\n\n* feat(x): y\n").versions =
        [(⟨1, 0, 0, []⟩, ⟨⟨1, 0, 0, []⟩, [⟨"feat", some "x", "y", 5⟩], 3⟩)] ∧
      (parse_changelog "# CHANGELOG\n\n# 1.0.0\n\n* feat(x): y\n").format_issues = [] := by
  decide

/-! ## Facts about single-character stripping, for the entry-line claims -/

theorem stripChar_some_data {c : Char} {s r : String} (h : stripChar c s = some r) :
    s.data = c :: r.data := by
  cases hd : s.data with
  | nil =>
    simp only [stripChar, hd] at h
    exact Option.noConfusion h
  | cons x xs =>
    simp only [stripChar, hd] at h
    by_cases hx : x = c
    · rw [if_pos hx] at h
      injection h with h'
      rw [hx, ← h']
    · rw [if_neg hx] at h
      exact Option.noConfusion h

theorem stripChar_not_header {c : Char} {s rest : String}
    (h : stripChar c s = some rest) (hc : c ≠ '#') :
    ¬ (s = "# CHANGELOG" ∨ s = "#CHANGELOG") := by
  have hd := stripChar_some_data h
  rintro (he | he) <;> rw [he] at hd <;> injection hd with h1 h2 <;> exact hc h1.symm

theorem stripChar_head_ne {c c' : Char} {s r : String} (h : stripChar c s = some r)
    (hne : c' ≠ c) : stripChar c' s = none := by
  have hd := stripChar_some_data h
  unfold stripChar
  rw [hd]
  simp only [if_neg (fun hh : c = c' => hne hh.symm)]

theorem stripChar_ne_empty {c : Char} {s r : String} (h : stripChar c s = some r) :
    s ≠ "" := by
  intro he
  rw [he] at h
  exact Option.noConfusion h

/-! ## Claim C4 -/

/-- C4 counterexample: a well-formed `-`-prefixed entry under an open
section is accepted into the section while the parsed document carries no
format issue at all — in particular no advisory note preferring `*`. -/
theorem claim_c4_counterexample :
    (parse_changelog "# 1.0.0\n- fix: z\n").versions =
        [(⟨1, 0, 0, []⟩, ⟨⟨1, 0, 0, []⟩, [⟨"fix", none, "z", 2⟩], 1⟩)] ∧
      (parse_changelog "# 1.0.0\n- fix: z\n").format_issues = [] := by
  decide

/-- C4 (amended): a `-`-prefixed line under an open version section is
accepted as an entry with no advisory recorded when it parses; only when
entry parsing fails is the resulting BadFormat issue's message suffixed
with the note preferring `*` over `-`. -/
theorem claim_c4_dash_entry (st : ParseState) (line : String) (cur : ChangelogVersion)
    (rest : String) (hcur : st.current = some cur)
    (hdash : stripChar '-' (strTrim line) = some rest) :
    (∀ e, parse_entry (strTrim rest) (st.line_number + 1) = Except.ok e →
      parse_line st line = ⟨st.changelog, some (cur.add_entry e), st.line_number + 1⟩) ∧
    (∀ msg, parse_entry (strTrim rest) (st.line_number + 1) = Except.error msg →
      parse_line st line =
        ⟨{ st.changelog with format_issues := st.changelog.format_issues ++
            [⟨.Error, .BadFormat, "line " ++ toString (st.line_number + 1) ++ ": " ++ msg
              ++ " (note: prefer '*' over '-' for entries)"⟩] },
          some cur, st.line_number + 1⟩) := by
  have hne : strTrim line ≠ "" := stripChar_ne_empty hdash
  have hnotCL := stripChar_not_header hdash (by decide)
  have hhash : stripChar '#' (strTrim line) = none := stripChar_head_ne hdash (by decide)
  have hstar : stripChar '*' (strTrim line) = none := stripChar_head_ne hdash (by decide)
  constructor
  · intro e he
    simp only [parse_line, if_neg hne, if_neg hnotCL, hhash, hstar, hdash, hcur, he]
  · intro msg hmsg
    simp only [parse_line, if_neg hne, if_neg hnotCL, hhash, hstar, hdash, hcur, hmsg]

/-- C4 witness: the amended statement applied to a concrete open section
and the concrete line `- fix: z`. -/
theorem claim_c4_dash_entry_witness :
    parse_line ⟨Changelog.new, some ⟨⟨1, 0, 0, []⟩, [], 1⟩, 1⟩ "- fix: z" =
      ⟨Changelog.new,
        some ((⟨⟨1, 0, 0, []⟩, [], 1⟩ : ChangelogVersion).add_entry ⟨"fix", none, "z", 2⟩),
        2⟩ :=
  (claim_c4_dash_entry ⟨Changelog.new, some ⟨⟨1, 0, 0, []⟩, [], 1⟩, 1⟩ "- fix: z"
    ⟨⟨1, 0, 0, []⟩, [], 1⟩ " fix: z" rfl (by decide)).1 ⟨"fix", none, "z", 2⟩ rfl

/-! ## Claim C5 -/

/-- C5 counterexample: a `-`-prefixed entry line with no version section
open is silently skipped — the parsed document records no format issue
(and no version), though the claim demands a recorded issue for every
entry line outside a section. -/
theorem claim_c5_counterexample :
    parse_changelog "- fix: z\n" = ⟨[], false, []⟩ := by
  decide

/-- C5 (amended): with no version section open, a `*`-prefixed entry line
records a BadFormat issue on the document, while a `-`-prefixed entry line
is silently ignored, changing nothing but the line counter. -/
theorem claim_c5_entry_outside_section (st : ParseState) (line : String) (rest : String)
    (hcur : st.current = none) :
    (stripChar '*' (strTrim line) = some rest →
      parse_line st line =
        ⟨{ st.changelog with format_issues := st.changelog.format_issues ++
            [⟨.Error, .BadFormat,
              "line " ++ toString (st.line_number + 1)
                ++ ": entry found outside of version section"⟩] },
          none, st.line_number + 1⟩) ∧
    (stripChar '-' (strTrim line) = some rest →
      parse_line st line = ⟨st.changelog, none, st.line_number + 1⟩) := by
  constructor
  · intro hstar
    have hne : strTrim line ≠ "" := stripChar_ne_empty hstar
    have hnotCL := stripChar_not_header hstar (by decide)
    have hhash : stripChar '#' (strTrim line) = none := stripChar_head_ne hstar (by decide)
    simp only [parse_line, if_neg hne, if_neg hnotCL, hhash, hstar, hcur]
  · intro hdash
    have hne : strTrim line ≠ "" := stripChar_ne_empty hdash
    have hnotCL := stripChar_not_header hdash (by decide)
    have hhash : stripChar '#' (strTrim line) = none := stripChar_head_ne hdash (by decide)
    have hstar : stripChar '*' (strTrim line) = none := stripChar_head_ne hdash (by decide)
    simp only [parse_line, if_neg hne, if_neg hnotCL, hhash, hstar, hdash, hcur]

/-- C5 witness: the amended statement applied to the concrete lines
`* fix: z` and `- fix: z` with no section open. -/
theorem claim_c5_entry_outside_section_witness :
    (parse_line ⟨Changelog.new, none, 0⟩ "* fix: z" =
      ⟨{ Changelog.new with format_issues := Changelog.new.format_issues ++
          [⟨.Error, .BadFormat,
            "line " ++ toString (0 + 1) ++ ": entry found outside of version section"⟩] },
        none, 0 + 1⟩) ∧
    (parse_line ⟨Changelog.new, none, 0⟩ "- fix: z" = ⟨Changelog.new, none, 0 + 1⟩) :=
  ⟨(claim_c5_entry_outside_section ⟨Changelog.new, none, 0⟩ "* fix: z" " fix: z" rfl).1
      (by decide),
    (claim_c5_entry_outside_section ⟨Changelog.new, none, 0⟩ "- fix: z" " fix: z" rfl).2
      (by decide)⟩

/-! ## Claim C2: the impact closure -/

theorem findIdx?_some_pred {α : Type} (p : α → Bool) :
    ∀ (l : List α) (s i : Nat), List.findIdx? p l s = some i → ∃ x ∈ l, p x = true := by
  intro l
  induction l with
  | nil => intro s i h; exact Option.noConfusion h
  | cons x xs ih =>
    intro s i h
    rw [List.findIdx?_cons] at h
    by_cases hp : p x = true
    · exact ⟨x, List.mem_cons_self x xs, hp⟩
    · rw [if_neg hp] at h
      obtain ⟨y, hy, hpy⟩ := ih (s + 1) i h
      exact ⟨y, List.mem_cons_of_mem x hy, hpy⟩

theorem nodeIndexOf_some_mem (g : CrateDependencyGraph) (id : CrateId) (i : Nat)
    (h : g.nodeIndexOf id = some i) : id ∈ g.nodes := by
  obtain ⟨x, hx, hpx⟩ := findIdx?_some_pred (fun x => decide (x = id)) g.nodes 0 i h
  exact (of_decide_eq_true hpx) ▸ hx

theorem get_dependents_mem (g : CrateDependencyGraph) (id d : CrateId)
    (h : d ∈ g.get_dependents id) : d ∈ g.nodes := by
  unfold CrateDependencyGraph.get_dependents at h
  cases hfi : g.nodeIndexOf id with
  | none =>
    rw [hfi] at h
    exact absurd h (List.not_mem_nil d)
  | some i =>
    rw [hfi] at h
    rw [List.mem_filterMap] at h
    obtain ⟨e, _, hsome⟩ := h
    by_cases hc : e.2.1 = i
    · rw [if_pos hc] at hsome
      exact List.get?_mem hsome
    · rw [if_neg hc] at hsome
      exact Option.noConfusion hsome

theorem get_dependents_nonempty_mem (g : CrateDependencyGraph) (id : CrateId)
    (h : g.get_dependents id ≠ []) : id ∈ g.nodes := by
  unfold CrateDependencyGraph.get_dependents at h
  cases hfi : g.nodeIndexOf id with
  | none => rw [hfi] at h; exact absurd rfl h
  | some i => exact nodeIndexOf_some_mem g id i hfi

theorem collect_affected_mono (g : CrateDependencyGraph) :
    ∀ fuel : Nat,
      (∀ (id : CrateId) (acc : List CrateId × List CrateId) (x : CrateId),
        x ∈ acc.2 → x ∈ (collect_affected g fuel id acc).2) ∧
      (∀ (ds : List CrateId) (acc : List CrateId × List CrateId) (x : CrateId),
        x ∈ acc.2 →
          x ∈ (ds.foldl (fun a d => collect_affected g fuel d a) acc).2) := by
  intro fuel
  induction fuel with
  | zero =>
    constructor
    · intro id acc x hx
      exact hx
    · intro ds
      induction ds with
      | nil => intro acc x hx; exact hx
      | cons d ds' ih =>
        intro acc x hx
        rw [List.foldl_cons]
        exact ih _ x hx
  | succ f ih =>
    have hA : ∀ (id : CrateId) (acc : List CrateId × List CrateId) (x : CrateId),
        x ∈ acc.2 → x ∈ (collect_affected g (f + 1) id acc).2 := by
      intro id acc x hx
      simp only [collect_affected]
      by_cases hm : id ∈ acc.2
      · rw [if_pos hm]; exact hx
      · rw [if_neg hm]
        exact ih.2 (g.get_dependents id) (acc.1 ++ [id], id :: acc.2) x
          (List.mem_cons_of_mem id hx)
    refine ⟨hA, ?_⟩
    intro ds
    induction ds with
    | nil => intro acc x hx; exact hx
    | cons d ds' ihds =>
      intro acc x hx
      rw [List.foldl_cons]
      exact ihds _ x (hA d acc x hx)

theorem collect_affected_visits (g : CrateDependencyGraph) (fuel : Nat) (id : CrateId)
    (acc : List CrateId × List CrateId) (hfuel : 0 < fuel) :
    id ∈ (collect_affected g fuel id acc).2 := by
  cases fuel with
  | zero => exact absurd hfuel (Nat.lt_irrefl 0)
  | succ f =>
    simp only [collect_affected]
    by_cases hm : id ∈ acc.2
    · rw [if_pos hm]; exact hm
    · rw [if_neg hm]
      exact (collect_affected_mono g f).2 (g.get_dependents id) (acc.1 ++ [id], id :: acc.2)
        id (List.mem_cons_self id acc.2)

theorem collect_affected_aff_iff (g : CrateDependencyGraph) :
    ∀ fuel : Nat,
      (∀ (id : CrateId) (acc : List CrateId × List CrateId),
        (∀ x, x ∈ acc.1 ↔ x ∈ acc.2) →
        ∀ x, x ∈ (collect_affected g fuel id acc).1 ↔
          x ∈ (collect_affected g fuel id acc).2) ∧
      (∀ (ds : List CrateId) (acc : List CrateId × List CrateId),
        (∀ x, x ∈ acc.1 ↔ x ∈ acc.2) →
        ∀ x, x ∈ (ds.foldl (fun a d => collect_affected g fuel d a) acc).1 ↔
          x ∈ (ds.foldl (fun a d => collect_affected g fuel d a) acc).2) := by
  intro fuel
  induction fuel with
  | zero =>
    constructor
    · intro id acc hiff x
      exact hiff x
    · intro ds
      induction ds with
      | nil => intro acc hiff x; exact hiff x
      | cons d ds' ih =>
        intro acc hiff x
        rw [List.foldl_cons]
        exact ih _ hiff x
  | succ f ih =>
    have hA : ∀ (id : CrateId) (acc : List CrateId × List CrateId),
        (∀ x, x ∈ acc.1 ↔ x ∈ acc.2) →
        ∀ x, x ∈ (collect_affected g (f + 1) id acc).1 ↔
          x ∈ (collect_affected g (f + 1) id acc).2 := by
      intro id acc hiff x
      simp only [collect_affected]
      by_cases hm : id ∈ acc.2
      · rw [if_pos hm]; exact hiff x
      · rw [if_neg hm]
        refine ih.2 (g.get_dependents id) (acc.1 ++ [id], id :: acc.2) ?_ x
        intro y
        constructor
        · intro hy
          rcases List.mem_append.mp hy with hy | hy
          · exact List.mem_cons_of_mem id ((hiff y).mp hy)
          · exact (List.mem_singleton.mp hy) ▸ List.mem_cons_self id acc.2
        · intro hy
          rcases List.mem_cons.mp hy with hy | hy
          · exact List.mem_append.mpr (Or.inr (hy ▸ List.mem_singleton_self y))
          · exact List.mem_append.mpr (Or.inl ((hiff y).mpr hy))
    refine ⟨hA, ?_⟩
    intro ds
    induction ds with
    | nil => intro acc hiff x; exact hiff x
    | cons d ds' ihds =>
      intro acc hiff x
      rw [List.foldl_cons]
      exact ihds _ (hA d acc hiff) x

theorem sdiff_card_mono (g : CrateDependencyGraph) (vis vis' : List CrateId)
    (h : ∀ x, x ∈ vis → x ∈ vis') :
    (g.nodes.toFinset \ vis'.toFinset).card ≤ (g.nodes.toFinset \ vis.toFinset).card := by
  refine Finset.card_le_card (Finset.sdiff_subset_sdiff (Finset.Subset.refl _) ?_)
  intro x hx
  exact List.mem_toFinset.mpr (h x (List.mem_toFinset.mp hx))

theorem collect_affected_closed (g : CrateDependencyGraph) :
    ∀ fuel : Nat,
      (∀ (id : CrateId) (acc : List CrateId × List CrateId),
        (g.nodes.toFinset \ acc.2.toFinset).card < fuel →
        ∀ p ∈ (collect_affected g fuel id acc).2,
          p ∈ acc.2 ∨ ∀ d ∈ g.get_dependents p, d ∈ (collect_affected g fuel id acc).2) ∧
      (∀ (ds : List CrateId) (acc : List CrateId × List CrateId),
        (g.nodes.toFinset \ acc.2.toFinset).card < fuel →
        (∀ p ∈ (ds.foldl (fun a d => collect_affected g fuel d a) acc).2,
          p ∈ acc.2 ∨ ∀ d ∈ g.get_dependents p,
            d ∈ (ds.foldl (fun a d => collect_affected g fuel d a) acc).2) ∧
        (∀ d ∈ ds, d ∈ (ds.foldl (fun a d => collect_affected g fuel d a) acc).2)) := by
  intro fuel
  induction fuel with
  | zero =>
    constructor
    · intro id acc hcard
      exact absurd hcard (Nat.not_lt_zero _)
    · intro ds acc hcard
      exact absurd hcard (Nat.not_lt_zero _)
  | succ f ih =>
    have hA : ∀ (id : CrateId) (acc : List CrateId × List CrateId),
        (g.nodes.toFinset \ acc.2.toFinset).card < f + 1 →
        ∀ p ∈ (collect_affected g (f + 1) id acc).2,
          p ∈ acc.2 ∨ ∀ d ∈ g.get_dependents p,
            d ∈ (collect_affected g (f + 1) id acc).2 := by
      intro id acc hcard
      simp only [collect_affected]
      by_cases hm : id ∈ acc.2
      · rw [if_pos hm]
        intro p hp
        exact Or.inl hp
      · rw [if_neg hm]
        by_cases hid : id ∈ g.nodes
        · have hmemdiff : id ∈ g.nodes.toFinset \ acc.2.toFinset :=
            Finset.mem_sdiff.mpr
              ⟨List.mem_toFinset.mpr hid, fun hc => hm (List.mem_toFinset.mp hc)⟩
          have hcard' :
              (g.nodes.toFinset \ (id :: acc.2).toFinset).card < f := by
            have h1 : (g.nodes.toFinset \ (id :: acc.2).toFinset).card <
                (g.nodes.toFinset \ acc.2.toFinset).card := by
              rw [List.toFinset_cons, Finset.sdiff_insert]
              exact Finset.card_erase_lt_of_mem hmemdiff
            omega
          obtain ⟨hcl, hds⟩ :=
            ih.2 (g.get_dependents id) (acc.1 ++ [id], id :: acc.2) hcard'
          intro p hp
          rcases hcl p hp with hin | hsub
          · rcases List.mem_cons.mp hin with hpid | hpacc
            · subst hpid
              exact Or.inr (fun d hd => hds d hd)
            · exact Or.inl hpacc
          · exact Or.inr hsub
        · have hdeps : g.get_dependents id = [] := by
            by_contra hne
            exact hid (get_dependents_nonempty_mem g id hne)
          rw [hdeps, List.foldl_nil]
          intro p hp
          rcases List.mem_cons.mp hp with hpid | hpacc
          · subst hpid
            refine Or.inr (fun d hd => ?_)
            rw [hdeps] at hd
            exact absurd hd (List.not_mem_nil d)
          · exact Or.inl hpacc
    refine ⟨hA, ?_⟩
    intro ds
    induction ds with
    | nil =>
      intro acc _
      exact ⟨fun p hp => Or.inl hp, fun d hd => absurd hd (List.not_mem_nil d)⟩
    | cons d ds' ihds =>
      intro acc hcard
      rw [List.foldl_cons]
      have hmono₁ : ∀ x ∈ acc.2, x ∈ (collect_affected g (f + 1) d acc).2 :=
        fun x hx => (collect_affected_mono g (f + 1)).1 d acc x hx
      have hcard₁ :
          (g.nodes.toFinset \ (collect_affected g (f + 1) d acc).2.toFinset).card < f + 1 :=
        Nat.lt_of_le_of_lt (sdiff_card_mono g acc.2 _ hmono₁) hcard
      obtain ⟨hcl', hds'⟩ := ihds (collect_affected g (f + 1) d acc) hcard₁
      have hmonoRest : ∀ x ∈ (collect_affected g (f + 1) d acc).2,
          x ∈ (ds'.foldl (fun a d => collect_affected g (f + 1) d a)
            (collect_affected g (f + 1) d acc)).2 :=
        fun x hx => (collect_affected_mono g (f + 1)).2 ds' _ x hx
      refine ⟨?_, ?_⟩
      · intro p hp
        rcases hcl' p hp with hin | hsub
        · rcases hA d acc hcard p hin with hin0 | hsub0
          · exact Or.inl hin0
          · exact Or.inr (fun d' hd' => hmonoRest d' (hsub0 d' hd'))
        · exact Or.inr hsub
      · intro d' hd'
        rcases List.mem_cons.mp hd' with rfl | hmem
        · exact hmonoRest d' (collect_affected_visits g (f + 1) d' acc (Nat.succ_pos f))
        · exact hds' d' hmem

theorem nodes_card_lt (g : CrateDependencyGraph) (vis : List CrateId) :
    (g.nodes.toFinset \ vis.toFinset).card < g.nodes.length + 1 :=
  Nat.lt_succ_of_le
    (Nat.le_trans (Finset.card_le_card (Finset.sdiff_subset)) (List.toFinset_card_le g.nodes))

theorem find_all_fold_closed (g : CrateDependencyGraph) :
    ∀ (seeds : List CrateId) (acc : List CrateId × List CrateId),
      (∀ p ∈ (seeds.foldl
          (fun a id => collect_affected g (g.nodes.length + 1) id a) acc).2,
        p ∈ acc.2 ∨ ∀ d ∈ g.get_dependents p,
          d ∈ (seeds.foldl
            (fun a id => collect_affected g (g.nodes.length + 1) id a) acc).2) ∧
      (∀ s ∈ seeds, s ∈ (seeds.foldl
        (fun a id => collect_affected g (g.nodes.length + 1) id a) acc).2) := by
  intro seeds
  induction seeds with
  | nil =>
    intro acc
    exact ⟨fun p hp => Or.inl hp, fun s hs => absurd hs (List.not_mem_nil s)⟩
  | cons s seeds' ih =>
    intro acc
    rw [List.foldl_cons]
    obtain ⟨hcl', hseeds'⟩ := ih (collect_affected g (g.nodes.length + 1) s acc)
    have hmonoRest : ∀ x ∈ (collect_affected g (g.nodes.length + 1) s acc).2,
        x ∈ (seeds'.foldl (fun a id => collect_affected g (g.nodes.length + 1) id a)
          (collect_affected g (g.nodes.length + 1) s acc)).2 :=
      fun x hx => (collect_affected_mono g (g.nodes.length + 1)).2 seeds' _ x hx
    refine ⟨?_, ?_⟩
    · intro p hp
      rcases hcl' p hp with hin | hsub
      · rcases (collect_affected_closed g (g.nodes.length + 1)).1 s acc
            (nodes_card_lt g acc.2) p hin with hin0 | hsub0
        · exact Or.inl hin0
        · exact Or.inr (fun d hd => hmonoRest d (hsub0 d hd))
      · exact Or.inr hsub
    · intro x hx
      rcases List.mem_cons.mp hx with rfl | hmem
      · exact hmonoRest x
          (collect_affected_visits g (g.nodes.length + 1) x acc (Nat.succ_pos _))
      · exact hseeds' x hmem

theorem find_all_fold_iff (g : CrateDependencyGraph) :
    ∀ (seeds : List CrateId) (acc : List CrateId × List CrateId),
      (∀ x, x ∈ acc.1 ↔ x ∈ acc.2) →
      ∀ x, x ∈ (seeds.foldl
          (fun a id => collect_affected g (g.nodes.length + 1) id a) acc).1 ↔
        x ∈ (seeds.foldl
          (fun a id => collect_affected g (g.nodes.length + 1) id a) acc).2 := by
  intro seeds
  induction seeds with
  | nil => intro acc hiff x; exact hiff x
  | cons s seeds' ih =>
    intro acc hiff x
    rw [List.foldl_cons]
    exact ih _ ((collect_affected_aff_iff g (g.nodes.length + 1)).1 s acc hiff) x

/-- C2: for every graph and seed list, the all-affected set returned by
the transitive impact closure contains every seed and is closed under the
dependents relation over every edge kind; the visited set guarding the
recursion makes this hold on cyclic graphs too. -/
theorem claim_c2_impact_closure (g : CrateDependencyGraph) (seeds : List CrateId) :
    (∀ s ∈ seeds, s ∈ g.find_all_affected_crates seeds) ∧
    (∀ p ∈ g.find_all_affected_crates seeds,
      ∀ d ∈ g.get_dependents p, d ∈ g.find_all_affected_crates seeds) := by
  unfold CrateDependencyGraph.find_all_affected_crates
  have hiff := find_all_fold_iff g seeds ([], [])
    (fun x => ⟨fun hx => absurd hx (List.not_mem_nil x),
      fun hx => absurd hx (List.not_mem_nil x)⟩)
  obtain ⟨hcl, hseeds⟩ := find_all_fold_closed g seeds ([], [])
  constructor
  · intro s hs
    exact (hiff s).mpr (hseeds s hs)
  · intro p hp d hd
    rcases hcl p ((hiff p).mp hp) with habs | hsub
    · exact absurd habs (List.not_mem_nil p)
    · exact (hiff d).mpr (hsub d hd)

/-- C2 witness: on the two-crate cyclic graph with seed `a`, the theorem
puts `a` and its dependent `b` in the all-affected set. -/
theorem claim_c2_impact_closure_witness :
    crateA ∈ gCycAB.find_all_affected_crates [crateA] ∧
    crateB ∈ gCycAB.find_all_affected_crates [crateA] :=
  ⟨(claim_c2_impact_closure gCycAB [crateA]).1 crateA (by decide),
    (claim_c2_impact_closure gCycAB [crateA]).2 crateA
      ((claim_c2_impact_closure gCycAB [crateA]).1 crateA (by decide)) crateB (by decide)⟩

/-! ## Claim C6: verified topological sort -/

theorem hasIncomingFrom_false {es : List (Nat × Nat)} {rem : List Nat} {i : Nat}
    (h : hasIncomingFrom es rem i = false) :
    ∀ u ∈ rem, (u, i) ∉ es := by
  intro u hu hmem
  unfold hasIncomingFrom at h
  rw [← Bool.not_eq_true, List.any_eq_true] at h
  refine h ⟨(u, i), hmem, ?_⟩
  simp [hu]

theorem kahnAux_sorted (es : List (Nat × Nat)) :
    ∀ (fuel : Nat) (rem l : List Nat),
      rem.length ≤ fuel → kahnAux es fuel rem = some l →
      l.Perm rem ∧ l.Pairwise (fun a b => (b, a) ∉ es) ∧ ∀ a ∈ l, (a, a) ∉ es := by
  intro fuel
  induction fuel with
  | zero =>
    intro rem l hlen h
    have hnil : rem = [] := List.length_eq_zero.mp (Nat.le_zero.mp hlen)
    subst hnil
    simp only [kahnAux, List.isEmpty_nil, if_true] at h
    injection h with h'
    subst h'
    exact ⟨List.Perm.refl [], List.Pairwise.nil, fun a ha => absurd ha (List.not_mem_nil a)⟩
  | succ f ih =>
    intro rem l hlen h
    simp only [kahnAux] at h
    cases hfind : rem.find? (fun i => ! hasIncomingFrom es rem i) with
    | none =>
      rw [hfind] at h
      by_cases hemp : rem.isEmpty
      · rw [if_pos hemp] at h
        injection h with h'
        subst h'
        rw [List.isEmpty_iff.mp hemp]
        exact ⟨List.Perm.refl [], List.Pairwise.nil,
          fun a ha => absurd ha (List.not_mem_nil a)⟩
      · rw [if_neg hemp] at h
        exact Option.noConfusion h
    | some i =>
      simp only [hfind] at h
      have hi : i ∈ rem := List.mem_of_find?_eq_some hfind
      have hnoinc : ∀ u ∈ rem, (u, i) ∉ es := by
        have hp := List.find?_some hfind
        rw [Bool.not_eq_eq_eq_not, Bool.not_true] at hp
        exact hasIncomingFrom_false hp
      cases hsub : kahnAux es f (rem.erase i) with
      | none => rw [hsub] at h; exact Option.noConfusion h
      | some l' =>
        rw [hsub] at h
        injection h with h'
        subst h'
        have hlen' : (rem.erase i).length ≤ f := by
          rw [List.length_erase_of_mem hi]
          have : 0 < rem.length := List.length_pos_of_mem hi
          omega
        obtain ⟨hperm, hpw, hself⟩ := ih (rem.erase i) l' hlen' hsub
        have hmem' : ∀ b ∈ l', b ∈ rem := fun b hb =>
          List.mem_of_mem_erase (hperm.mem_iff.mp hb)
        refine ⟨?_, ?_, ?_⟩
        · exact List.Perm.trans (List.Perm.cons i hperm) (List.perm_cons_erase hi).symm
        · exact List.pairwise_cons.mpr ⟨fun b hb => hnoinc b (hmem' b hb), hpw⟩
        · intro a ha
          rcases List.mem_cons.mp ha with rfl | ha'
          · exact hnoinc a hi
          · exact hself a ha'

theorem pairwise_indexOf_lt {es : List (Nat × Nat)} :
    ∀ l : List Nat, l.Pairwise (fun a b => (b, a) ∉ es) →
      ∀ u v, (u, v) ∈ es → u ∈ l → v ∈ l → u ≠ v →
        List.indexOf u l < List.indexOf v l := by
  intro l
  induction l with
  | nil => intro _ u v _ hu _ _; exact absurd hu (List.not_mem_nil u)
  | cons x t ih =>
    intro hpw u v hes hu hv hne
    obtain ⟨hx, hpw'⟩ := List.pairwise_cons.mp hpw
    by_cases hux : u = x
    · subst hux
      rw [List.indexOf_cons_self]
      have hv' : v ∈ t := by
        rcases List.mem_cons.mp hv with rfl | hv'
        · exact absurd rfl hne
        · exact hv'
      rw [List.indexOf_cons_ne t (fun hh : u = v => hne hh)]
      exact Nat.succ_pos _
    · by_cases hvx : v = x
      · subst hvx
        have hu' : u ∈ t := by
          rcases List.mem_cons.mp hu with rfl | hu'
          · exact absurd rfl hux
          · exact hu'
        exact absurd hes (hx u hu')
      · have hu' : u ∈ t := by
          rcases List.mem_cons.mp hu with rfl | hu'
          · exact absurd rfl hux
          · exact hu'
        have hv' : v ∈ t := by
          rcases List.mem_cons.mp hv with rfl | hv'
          · exact absurd rfl hvx
          · exact hv'
        rw [List.indexOf_cons_ne t (fun hh : x = u => hux hh.symm),
          List.indexOf_cons_ne t (fun hh : x = v => hvx hh.symm)]
        exact Nat.succ_lt_succ (ih hpw' u v hes hu' hv' hne)

theorem sorted_no_cycle {es : List (Nat × Nat)} {l rem : List Nat}
    (hpw : l.Pairwise (fun a b => (b, a) ∉ es)) (hself : ∀ a ∈ l, (a, a) ∉ es)
    (hmem : ∀ x ∈ rem, x ∈ l) :
    ∀ x, ¬ Relation.TransGen (fun u v => (u, v) ∈ es ∧ u ∈ rem ∧ v ∈ rem) x x := by
  have hstep : ∀ u v, ((u, v) ∈ es ∧ u ∈ rem ∧ v ∈ rem) →
      List.indexOf u l < List.indexOf v l := by
    rintro u v ⟨hes, hu, hv⟩
    have hne : u ≠ v := by
      rintro rfl
      exact hself u (hmem u hu) hes
    exact pairwise_indexOf_lt l hpw u v hes (hmem u hu) (hmem v hv) hne
  have hmono : ∀ x y,
      Relation.TransGen (fun u v => (u, v) ∈ es ∧ u ∈ rem ∧ v ∈ rem) x y →
      List.indexOf x l < List.indexOf y l := by
    intro x y htg
    induction htg with
    | single h => exact hstep _ _ h
    | tail _ h ihh => exact Nat.lt_trans ihh (hstep _ _ h)
  intro x htg
  exact Nat.lt_irrefl _ (hmono x x htg)

theorem stuck_has_cycle (es : List (Nat × Nat)) (rem : List Nat) (hne : rem ≠ [])
    (hstuck : ∀ i ∈ rem, ∃ u, u ∈ rem ∧ (u, i) ∈ es) :
    ∃ x ∈ rem, Relation.TransGen (fun u v => (u, v) ∈ es ∧ u ∈ rem ∧ v ∈ rem) x x := by
  classical
  have hchoice : ∀ i : Nat, ∃ u, i ∈ rem → (u ∈ rem ∧ (u, i) ∈ es) := by
    intro i
    by_cases hi : i ∈ rem
    · obtain ⟨u, hu⟩ := hstuck i hi
      exact ⟨u, fun _ => hu⟩
    · exact ⟨0, fun hc => absurd hc hi⟩
  choose f hf using hchoice
  obtain ⟨x₀, hx₀⟩ := List.exists_mem_of_ne_nil rem hne
  have hmem : ∀ n : Nat, f^[n] x₀ ∈ rem := by
    intro n
    induction n with
    | zero => exact hx₀
    | succ n ihn =>
      rw [Function.iterate_succ_apply']
      exact (hf (f^[n] x₀) ihn).1
  have hedge : ∀ n : Nat, (f^[n + 1] x₀, f^[n] x₀) ∈ es := by
    intro n
    rw [Function.iterate_succ_apply']
    exact (hf (f^[n] x₀) (hmem n)).2
  have hchain : ∀ k n : Nat,
      Relation.TransGen (fun u v => (u, v) ∈ es ∧ u ∈ rem ∧ v ∈ rem)
        (f^[n + k + 1] x₀) (f^[n] x₀) := by
    intro k
    induction k with
    | zero =>
      intro n
      exact Relation.TransGen.single ⟨hedge n, hmem (n + 1), hmem n⟩
    | succ k ihk =>
      intro n
      have hstep : (f^[n + k + 1 + 1] x₀, f^[n + k + 1] x₀) ∈ es := hedge (n + k + 1)
      have hrw : n + (k + 1) + 1 = n + k + 1 + 1 := by omega
      rw [hrw]
      exact Relation.TransGen.head ⟨hstep, hmem (n + k + 1 + 1), hmem (n + k + 1)⟩ (ihk n)
  have hcard : rem.toFinset.card < (Finset.range (rem.length + 1)).card := by
    rw [Finset.card_range]
    exact Nat.lt_succ_of_le (List.toFinset_card_le rem)
  obtain ⟨i, _, j, _, hij, heq⟩ :=
    Finset.exists_ne_map_eq_of_card_lt_of_maps_to hcard
      (fun n _ => List.mem_toFinset.mpr (hmem n))
  rcases Nat.lt_or_ge i j with hlt | hge
  · refine ⟨f^[i] x₀, hmem i, ?_⟩
    have hd : i + (j - i - 1) + 1 = j := by omega
    have hch := hchain (j - i - 1) i
    rw [hd, ← heq] at hch
    exact hch
  · have hlt' : j < i := Nat.lt_of_le_of_ne hge (fun hh => hij hh.symm)
    refine ⟨f^[j] x₀, hmem j, ?_⟩
    have hd : j + (i - j - 1) + 1 = i := by omega
    have hch := hchain (i - j - 1) j
    rw [hd, heq] at hch
    exact hch

theorem kahnAux_none_iff (es : List (Nat × Nat)) :
    ∀ (fuel : Nat) (rem : List Nat), rem.length ≤ fuel →
      (kahnAux es fuel rem = none ↔
        ∃ x ∈ rem,
          Relation.TransGen (fun u v => (u, v) ∈ es ∧ u ∈ rem ∧ v ∈ rem) x x) := by
  intro fuel
  induction fuel with
  | zero =>
    intro rem hlen
    have hnil : rem = [] := List.length_eq_zero.mp (Nat.le_zero.mp hlen)
    subst hnil
    simp only [kahnAux, List.isEmpty_nil, if_true]
    constructor
    · intro h; exact Option.noConfusion h
    · rintro ⟨x, hx, _⟩; exact absurd hx (List.not_mem_nil x)
  | succ f ih =>
    intro rem hlen
    simp only [kahnAux]
    cases hfind : rem.find? (fun i => ! hasIncomingFrom es rem i) with
    | none =>
      simp only [hfind]
      by_cases hemp : rem.isEmpty
      · rw [if_pos hemp]
        constructor
        · intro h; exact Option.noConfusion h
        · rintro ⟨x, hx, _⟩
          rw [List.isEmpty_iff.mp hemp] at hx
          exact absurd hx (List.not_mem_nil x)
      · rw [if_neg hemp]
        constructor
        · intro _
          have hne : rem ≠ [] := fun hh => hemp (by rw [hh]; rfl)
          refine stuck_has_cycle es rem hne ?_
          intro i hi
          have hall := List.find?_eq_none.mp hfind i hi
          have htrue : hasIncomingFrom es rem i = true := by
            cases hh : hasIncomingFrom es rem i
            · exact absurd (by rw [hh]; rfl) hall
            · rfl
          unfold hasIncomingFrom at htrue
          rw [List.any_eq_true] at htrue
          obtain ⟨e, he, hpe⟩ := htrue
          rw [Bool.and_eq_true, decide_eq_true_eq, decide_eq_true_eq] at hpe
          refine ⟨e.1, hpe.2, ?_⟩
          rw [← hpe.1]
          exact he
        · intro _; rfl
    | some i =>
      simp only [hfind]
      have hi : i ∈ rem := List.mem_of_find?_eq_some hfind
      have hnoinc : ∀ u ∈ rem, (u, i) ∉ es := by
        have hp := List.find?_some hfind
        rw [Bool.not_eq_eq_eq_not, Bool.not_true] at hp
        exact hasIncomingFrom_false hp
      have hlen' : (rem.erase i).length ≤ f := by
        rw [List.length_erase_of_mem hi]
        have : 0 < rem.length := List.length_pos_of_mem hi
        omega
      rw [Option.map_eq_none', ih (rem.erase i) hlen']
      constructor
      · rintro ⟨x, hx, htg⟩
        refine ⟨x, List.mem_of_mem_erase hx, htg.mono ?_⟩
        rintro u v ⟨h1, h2, h3⟩
        exact ⟨h1, List.mem_of_mem_erase h2, List.mem_of_mem_erase h3⟩
      · rintro ⟨x, hx, htg⟩
        have hP : ∀ a b,
            Relation.TransGen (fun u v => (u, v) ∈ es ∧ u ∈ rem ∧ v ∈ rem) a b →
            b ≠ i ∧ (a ≠ i →
              Relation.TransGen
                (fun u v => (u, v) ∈ es ∧ u ∈ rem.erase i ∧ v ∈ rem.erase i) a b) := by
          intro a b htg'
          induction htg' with
          | single h =>
            obtain ⟨hes, ha, hb⟩ := h
            have hbne : _ ≠ i := fun hh => hnoinc a ha (hh ▸ hes)
            refine ⟨hbne, fun hane => Relation.TransGen.single
              ⟨hes, (List.mem_erase_of_ne hane).mpr ha,
                (List.mem_erase_of_ne hbne).mpr hb⟩⟩
          | tail _ h ih2 =>
            obtain ⟨hes, hb0, hc⟩ := h
            have hcne : _ ≠ i := fun hh => hnoinc _ hb0 (hh ▸ hes)
            refine ⟨hcne, fun hane => ?_⟩
            exact Relation.TransGen.tail (ih2.2 hane)
              ⟨hes, (List.mem_erase_of_ne ih2.1).mpr hb0,
                (List.mem_erase_of_ne hcne).mpr hc⟩
        obtain ⟨hxne, hrest⟩ := hP x x htg
        exact ⟨x, (List.mem_erase_of_ne hxne).mpr hx, hrest hxne⟩

/-- C6: over every well-formed graph (distinct nodes), `topological_order`
returns `none` exactly when the full graph, all edge kinds included,
contains a cycle; a returned ordering lists every package and never places
a package before one of its direct dependencies (dependency-first); and on
the concrete chain where A depends on B depends on C it returns C, B, A. -/
theorem claim_c6_topological_order :
    (∀ g : CrateDependencyGraph, g.nodes.Nodup →
      (g.topological_order = none ↔ hasCycleFull g) ∧
      (∀ l, g.topological_order = some l →
        (∀ id ∈ g.nodes, id ∈ l) ∧
        l.Pairwise (fun a b => ¬ dependsOnDirectly g a b))) ∧
    gABC.topological_order = some [crateC, crateB, crateA] := by
  refine ⟨?_, by decide⟩
  intro g hnd
  have hlen : (List.range g.nodes.length).length ≤ g.nodes.length := by
    rw [List.length_range]
  constructor
  · unfold CrateDependencyGraph.topological_order
    rw [Option.map_eq_none',
      kahnAux_none_iff g.edgePairs g.nodes.length (List.range g.nodes.length) hlen]
    constructor
    · rintro ⟨x, _, htg⟩
      refine ⟨x, htg.mono ?_⟩
      rintro u v ⟨h1, h2, h3⟩
      exact ⟨h1, List.mem_range.mp h2, List.mem_range.mp h3⟩
    · rintro ⟨x, htg⟩
      have hstart : ∀ a b, Relation.TransGen (fullEdgeStep g) a b →
          a < g.nodes.length := by
        intro a b h
        induction h with
        | single h' => exact h'.2.1
        | tail _ _ ih' => exact ih'
      refine ⟨x, List.mem_range.mpr (hstart x x htg), htg.mono ?_⟩
      rintro u v ⟨h1, h2, h3⟩
      exact ⟨h1, List.mem_range.mpr h2, List.mem_range.mpr h3⟩
  · intro l hl
    unfold CrateDependencyGraph.topological_order at hl
    rw [Option.map_eq_some'] at hl
    obtain ⟨kl, hk, hlval⟩ := hl
    obtain ⟨hperm, hpw, _⟩ :=
      kahnAux_sorted g.edgePairs g.nodes.length (List.range g.nodes.length) kl hlen hk
    subst hlval
    constructor
    · intro id hid
      obtain ⟨k, hk'⟩ := List.mem_iff_get?.mp hid
      obtain ⟨hklt, _⟩ := List.get?_eq_some.mp hk'
      have hkmem : k ∈ kl := hperm.mem_iff.mpr (List.mem_range.mpr hklt)
      exact List.mem_filterMap.mpr ⟨k, List.mem_reverse.mpr hkmem, hk'⟩
    · rw [List.pairwise_filterMap]
      have hrev : kl.reverse.Pairwise (fun a b => (a, b) ∉ g.edgePairs) :=
        List.pairwise_reverse.mpr hpw
      refine hrev.imp ?_
      intro i j hij
      intro a ha b hb hdep
      obtain ⟨e, he, hea, heb⟩ := hdep
      have hea' : g.nodes.get? e.1 = some a := hea
      have heb' : g.nodes.get? e.2.1 = some b := heb
      have ha' : g.nodes.get? i = some a := Option.mem_def.mp ha
      have hb' : g.nodes.get? j = some b := Option.mem_def.mp hb
      obtain ⟨h1lt, _⟩ := List.get?_eq_some.mp hea'
      obtain ⟨h2lt, _⟩ := List.get?_eq_some.mp heb'
      have he1 : e.1 = i := List.get?_inj h1lt hnd (hea'.trans ha'.symm)
      have he2 : e.2.1 = j := List.get?_inj h2lt hnd (heb'.trans hb'.symm)
      refine hij ?_
      rw [← he1, ← he2]
      exact List.mem_map.mpr ⟨e, he, rfl⟩

/-- C6 witness: on the acyclic chain the sort succeeds with the
dependency-first order C, B, A; by the equivalence, the full graph of that
chain has no cycle. -/
theorem claim_c6_topological_order_witness :
    gABC.topological_order = some [crateC, crateB, crateA] ∧ ¬ hasCycleFull gABC :=
  ⟨claim_c6_topological_order.2, fun hc => by
    have h := ((claim_c6_topological_order.1 gABC (by decide)).1).mpr hc
    rw [claim_c6_topological_order.2] at h
    exact Option.noConfusion h⟩

end Deptrack
